import Mathlib

/-!
# asyncerror: threshold policy and escalation dispatcher

A shallow embedding of the Go package `asyncerror` (files `policy.go`,
`policy_immediate.go`, `policy_threshold.go`, `escalator.go`), followed by the
properties proved of it.

Conventions of the embedding:

* a Go `error` interface value is an `Option GoError`; `none` is `nil`;
* a `time.Time` is an integer count of nanoseconds on one timeline whose origin
  is the zero `time.Time`; `time.Time.Sub` saturates to the `int64` range of
  `time.Duration`, as the standard library does;
* the reading of `time.Now()` is a parameter of the function that takes it;
* a run-time panic is a value of `Panic`; a function that can panic returns the
  state it leaves behind together with an `Except Panic _`;
* mutexes are left out: every modelled function runs with its lock held from
  entry to exit, so calls on one object are executed one after another.
-/

namespace asyncerror

/-! ## Errors and panics -/

/-- Non-nil Go error values: an application error with the text its `Error()`
method returns, or the `*fmt.wrapError` that `fmt.Errorf` builds for `%w`. -/
inductive GoError where
  | base (text : String)
  | wrapError (msg : String) (err : GoError)
deriving DecidableEq, Repr

/-- Method `Error()` of an error value. -/
def GoError.Error : GoError → String
  | .base text => text
  | .wrapError msg _ => msg

/-- Function `errors.Unwrap`: the wrapped error of a `*fmt.wrapError`, `nil` for
an error without an `Unwrap` method. -/
def GoError.Unwrap : GoError → Option GoError
  | .base _ => none
  | .wrapError _ err => some err

/-- Run-time panics raised by the package. -/
inductive Panic where
  | noNameOrUniqID
  | alreadyRegistered (uid : String)
  | notRegistered (uid : String)
  | nilDereference
  | makechanSizeOutOfRange
deriving DecidableEq, Repr

/-! ## Time -/

/-- Instants (`time.Time`) in nanoseconds; `0` is the zero `time.Time`. -/
abbrev Time := Int

/-- Durations (`time.Duration`) in nanoseconds. -/
abbrev Duration := Int

/-- Largest `time.Duration`. -/
def maxDuration : Int := 2 ^ 63 - 1

/-- Smallest `time.Duration`. -/
def minDuration : Int := -(2 ^ 63)

/-- Method `t.Sub(u)` of `time.Time`: the duration `t - u`, replaced by the
largest (smallest) duration when the difference is above (below) the range. -/
def Time.Sub (t u : Int) : Int :=
  if t - u > maxDuration then maxDuration
  else if t - u < minDuration then minDuration
  else t - u

/-- Wrap-around of an arithmetic result to the 64-bit Go `int`. -/
def wrapInt (x : Int) : Int := (x + 2 ^ 63) % 2 ^ 64 - 2 ^ 63

/-! ## Threshold policy (`policy_threshold.go`) -/

/-- Struct `errorTimeRecord`. -/
structure errorTimeRecord where
  At : Time
  Err : Option GoError
deriving DecidableEq, Repr

/-- Struct `ThresholdEscalationPolicy` without its mutex. -/
structure ThresholdEscalationPolicy where
  ErrorCount : Int
  TimeWindow : Duration
  Name : String
  UniqID : String
  LogEvery : Int
  lastCompression : Time
  skippedSinceLastLog : Int
  errors : List errorTimeRecord
deriving DecidableEq, Repr

namespace ThresholdEscalationPolicy

/-- Method `Close`: does nothing. -/
def Close (e : ThresholdEscalationPolicy) : ThresholdEscalationPolicy := e

/-- Method `GetDesiredBufferSize`. -/
def GetDesiredBufferSize (e : ThresholdEscalationPolicy) : Int := wrapInt (e.ErrorCount * 2)

/-- Method `GetName`. -/
def GetName (e : ThresholdEscalationPolicy) : String := e.Name

/-- Method `GetUniqID`. -/
def GetUniqID (e : ThresholdEscalationPolicy) : String := e.UniqID

/-- Capacity hint of the compacted slice: `len(e.errors) / 2`, or `2` when that
is at most `1`. -/
def newSliceSize (len : Nat) : Nat := if len / 2 ≤ 1 then 2 else len / 2

/-- One iteration of the `for ... range e.errors` loop of `Receive`, on the pair
`(errorsInWindow, compressedErrors)`. -/
def scanStep (now : Time) (timeWindow : Duration) (performCompress : Bool)
    (acc : Nat × List errorTimeRecord) (errRecord : errorTimeRecord) :
    Nat × List errorTimeRecord :=
  if Time.Sub now errRecord.At ≤ timeWindow then
    (acc.1 + 1, if performCompress then acc.2 ++ [errRecord] else acc.2)
  else acc

/-- The window test of `Receive` on a stored record: `now.Sub(At) <= TimeWindow`. -/
def inWindow (now : Time) (timeWindow : Duration) (errRecord : errorTimeRecord) : Bool :=
  decide (Time.Sub now errRecord.At ≤ timeWindow)

/-- What a returning call of `Receive` yields: its boolean and the line it hands
to `log.Println`, if any. -/
structure Returned where
  escalate : Bool
  logged : Option String
deriving DecidableEq, Repr

/-- Method `Receive`, called when `time.Now()` reads `now`. The first component
is the policy after the call. The call panics when it has to log a nil error,
since `err.Error()` is evaluated before the logging goroutine starts. -/
def Receive (e : ThresholdEscalationPolicy) (now : Time) (err : Option GoError) :
    ThresholdEscalationPolicy × Except Panic Returned :=
  let bumped := wrapInt (e.skippedSinceLastLog + 1)
  let logNow : Bool := decide (e.LogEvery > 0) && decide (bumped ≥ e.LogEvery)
  if logNow && err.isNone then
    ({ e with skippedSinceLastLog := bumped }, .error .nilDereference)
  else
    let skipped :=
      if e.LogEvery > 0 then (if bumped ≥ e.LogEvery then 0 else bumped)
      else e.skippedSinceLastLog
    let logged : Option String := if logNow then err.map GoError.Error else none
    let performCompress : Bool := decide (Time.Sub now e.lastCompression > e.TimeWindow)
    let errors := e.errors ++ [{ At := now, Err := err }]
    let scanned := errors.foldl (scanStep now e.TimeWindow performCompress) (0, [])
    let e' : ThresholdEscalationPolicy :=
      if performCompress then
        { e with skippedSinceLastLog := skipped, lastCompression := now, errors := scanned.2 }
      else
        { e with skippedSinceLastLog := skipped, errors := errors }
    (e', .ok { escalate := decide ((scanned.1 : Int) ≥ e.ErrorCount), logged := logged })

/-- A policy as the application creates it: the exported fields set, the
unexported ones at their zero values. -/
def fresh (errorCount : Int) (timeWindow : Duration) (name uniqID : String) (logEvery : Int) :
    ThresholdEscalationPolicy :=
  { ErrorCount := errorCount, TimeWindow := timeWindow, Name := name, UniqID := uniqID,
    LogEvery := logEvery, lastCompression := 0, skippedSinceLastLog := 0, errors := [] }

/-- Successive calls of `Receive` on one policy, each with the clock reading and
the error of the call; the outcomes in call order. A panic ends the run. -/
def run (e : ThresholdEscalationPolicy) :
    List (Time × Option GoError) → List (Except Panic Returned)
  | [] => []
  | (now, err) :: rest =>
    match e.Receive now err with
    | (_, .error p) => [.error p]
    | (e', .ok r) => .ok r :: run e' rest

/-- The policy that a call of `Receive` with a non-nil error leaves behind. -/
def after (e : ThresholdEscalationPolicy) (now : Time) (err : GoError) :
    ThresholdEscalationPolicy :=
  (e.Receive now (some err)).1

/-- The record that `Receive` appends for a call at `c.1` with the non-nil error `c.2`. -/
def recordOf (c : Time × GoError) : errorTimeRecord := { At := c.1, Err := some c.2 }

/-- The argument list of `run` for calls that all carry a non-nil error. -/
def withErrors (calls : List (Time × GoError)) : List (Time × Option GoError) :=
  calls.map (fun c => (c.1, some c.2))

/-- Clock reading of the call number `i` (from zero) of a list of calls. -/
def timeAt (calls : List (Time × GoError)) (i : Nat) : Time :=
  (calls.map Prod.fst).getD i 0

end ThresholdEscalationPolicy

/-! ## Immediate policy (`policy_immediate.go`) -/

/-- Struct `ImmediateEscalationPolicy`. -/
structure ImmediateEscalationPolicy where
  Name : String
  UniqID : String
  Log : Bool
deriving DecidableEq, Repr

namespace ImmediateEscalationPolicy

/-- Method `Close`: does nothing. -/
def Close (i : ImmediateEscalationPolicy) : ImmediateEscalationPolicy := i

/-- Method `GetDesiredBufferSize`. -/
def GetDesiredBufferSize (_i : ImmediateEscalationPolicy) : Int := 1

/-- Method `GetName`. -/
def GetName (i : ImmediateEscalationPolicy) : String := i.Name

/-- Method `GetUniqID`. -/
def GetUniqID (i : ImmediateEscalationPolicy) : String := i.UniqID

/-- Method `Receive`: the returned boolean and the line given to `log.Println`,
if any. With `Log` set, `err.Error()` on a nil error panics. -/
def Receive (i : ImmediateEscalationPolicy) (err : Option GoError) :
    Except Panic (Bool × Option String) :=
  if i.Log then
    match err with
    | none => .error .nilDereference
    | some v => .ok (true, some v.Error)
  else .ok (true, none)

end ImmediateEscalationPolicy

/-! ## Policy interface (`policy.go`) -/

/-- A value of interface `Policy` as the dispatcher sees it during one of its
calls: the object it points to and what the methods return. `Receive err` is the
outcome of the call `policy.Receive(err)`; the state that the policy keeps for
itself stays inside the policy. -/
structure Policy where
  ref : Nat
  GetDesiredBufferSize : Int
  GetName : String
  GetUniqID : String
  Receive : Option GoError → Except Panic Bool

/-- Function `uidForPolicy`. -/
def uidForPolicy (policy : Policy) : Except Panic String :=
  if policy.GetUniqID ≠ "" then .ok policy.GetUniqID
  else if policy.GetName ≠ "" then .ok policy.GetName
  else .error .noNameOrUniqID

/-- The identity of a policy: its uid, or its name when the uid is empty. -/
def identity (policy : Policy) : String :=
  if policy.GetUniqID ≠ "" then policy.GetUniqID else policy.GetName

/-- An `ImmediateEscalationPolicy` at address `ref` behind the interface. -/
def ImmediateEscalationPolicy.toPolicy (i : ImmediateEscalationPolicy) (ref : Nat) : Policy :=
  { ref := ref, GetDesiredBufferSize := i.GetDesiredBufferSize, GetName := i.GetName,
    GetUniqID := i.GetUniqID, Receive := fun err => (i.Receive err).map Prod.fst }

/-- A `ThresholdEscalationPolicy` at address `ref` behind the interface, for a
call of `Receive` made when the clock reads `now`. -/
def ThresholdEscalationPolicy.toPolicy (e : ThresholdEscalationPolicy) (now : Time)
    (ref : Nat) : Policy :=
  { ref := ref, GetDesiredBufferSize := e.GetDesiredBufferSize, GetName := e.GetName,
    GetUniqID := e.GetUniqID,
    Receive := fun err => (e.Receive now err).2.map Returned.escalate }

/-! ## Escalator (`escalator.go`) -/

/-- Constant `defaultErrChanBufferSize`. -/
def defaultErrChanBufferSize : Int := 32

/-- A buffer size that `make(chan error, size)` accepts nowhere above: the Go
runtime panics when the buffer, at 16 bytes for each interface value, would pass
its allocation limit, which is at most `2 ^ 48` bytes. Closed statements below
take it as the limit of `RegisterPolicy`. -/
def makeLimit64 : Int := 2 ^ 44

/-- A channel: the identity that `make` gave it and its buffer capacity. -/
structure Chan where
  id : Nat
  cap : Int
deriving DecidableEq, Repr

/-- Struct `policyRecord`. The closure `closer` is kept as the variables it
captures (`errorChan`, `policy`, `closeChan`); its body is `policyRecord.closer`. -/
structure policyRecord where
  uid : String
  errorChan : Chan
  policy : Nat
  closeChan : Chan
deriving DecidableEq, Repr

/-- Actions of the dispatcher on channels, goroutines and policies, in the order
in which a call performs them. -/
inductive Effect where
  | makeChan (c : Chan)
  | goWorker (policy : Nat) (errorChan closeChan : Chan)
  | closeChan (c : Chan)
  | policyClose (policy : Nat)
deriving DecidableEq, Repr

/-- Body of the closure stored in field `closer`: `close(errorChan)`,
`policy.Close()`, `close(closeChan)`. -/
def policyRecord.closer (r : policyRecord) : List Effect :=
  [.closeChan r.errorChan, .policyClose r.policy, .closeChan r.closeChan]

/-- Struct `escalator` without its mutex. The map `policies` is `none` while it
is nil and otherwise a list of key/value pairs, the latest binding first. -/
structure escalator where
  errEscalationChan : Chan
  policies : Option (List (String × policyRecord))
deriving DecidableEq, Repr

/-- Function `NewEscalator`; `id` is the identity of the channel it makes. -/
def NewEscalator (id : Nat) : escalator :=
  { errEscalationChan := { id := id, cap := defaultErrChanBufferSize }, policies := none }

namespace escalator

/-- Method `EscalationChannel`. -/
def EscalationChannel (h : escalator) : Chan := h.errEscalationChan

/-- Map lookup `h.policies[k]` with its `ok` flag; a nil map has no key. -/
def lookup (h : escalator) (k : String) : Option policyRecord :=
  match h.policies with
  | none => none
  | some m => (m.find? (fun kv => kv.1 == k)).map Prod.snd

/-- Keys of the map `h.policies`: the registered identities. -/
def keys (h : escalator) : List String :=
  match h.policies with
  | none => []
  | some m => m.map Prod.fst

/-- Map assignment `m[k] = r` on a non-nil map. -/
def mapAssign (m : List (String × policyRecord)) (k : String) (r : policyRecord) :
    List (String × policyRecord) :=
  (k, r) :: m.filter (fun kv => kv.1 != k)

/-- Builtin `delete(m, k)`; a no-op on a nil map. -/
def mapDelete (m : Option (List (String × policyRecord))) (k : String) :
    Option (List (String × policyRecord)) :=
  m.map (fun l => l.filter (fun kv => kv.1 != k))

/-- The buffer size that `RegisterPolicy` asks `make` for: the size the policy
desires, or the default when that is not positive. -/
def bufSize (policy : Policy) : Int :=
  if policy.GetDesiredBufferSize ≤ 0 then defaultErrChanBufferSize
  else policy.GetDesiredBufferSize

/-- What a call on the escalator leaves and yields: the escalator afterwards,
the actions performed, and the returned value or the panic. -/
structure Result (α : Type) where
  h : escalator
  effects : List Effect
  ret : Except Panic α

/-- Method `RegisterPolicy`. `errorChanID` and `closeChanID` are the identities
that the two calls of `make` give to the new channels. `limit` is the largest
buffer size for which `make(chan error, size)` returns where the program runs;
for a larger size `make` panics with `makechan: size out of range`, before any
channel, goroutine or registry entry exists. The unbuffered `make(chan struct{})`
always returns. -/
def RegisterPolicy (h : escalator) (policy : Policy) (limit : Int)
    (errorChanID closeChanID : Nat) : Result Chan :=
  let m := match h.policies with
    | none => []
    | some m => m
  let h1 : escalator := { h with policies := some m }
  match uidForPolicy policy with
  | .error p => { h := h1, effects := [], ret := .error p }
  | .ok policyUid =>
    if (h1.lookup policyUid).isSome then
      { h := h1, effects := [], ret := .error (.alreadyRegistered policyUid) }
    else
      let bufSize := bufSize policy
      if bufSize > limit then
        { h := h1, effects := [], ret := .error .makechanSizeOutOfRange }
      else
        let errorChan : Chan := { id := errorChanID, cap := bufSize }
        let closeChan : Chan := { id := closeChanID, cap := 0 }
        let record : policyRecord :=
          { uid := policyUid, errorChan := errorChan, policy := policy.ref,
            closeChan := closeChan }
        { h := { h1 with policies := some (mapAssign m policyUid record) },
          effects := [.makeChan errorChan, .makeChan closeChan,
                      .goWorker policy.ref errorChan closeChan],
          ret := .ok errorChan }

/-- Method `UnregisterPolicy`. -/
def UnregisterPolicy (h : escalator) (policy : Policy) : Result Unit :=
  match uidForPolicy policy with
  | .error p => { h := h, effects := [], ret := .error p }
  | .ok policyUid =>
    match h.lookup policyUid with
    | none => { h := h, effects := [], ret := .error (.notRegistered policyUid) }
    | some record =>
      { h := { h with policies := mapDelete h.policies policyUid },
        effects := record.closer,
        ret := .ok () }

end escalator

/-! ### Evaluation goroutine -/

/-- Result of `fmt.Errorf(format, ..., err)` whose format ends in `%w`, given
the text `front` formatted before the verb: a `*fmt.wrapError` around a non-nil
`err`; for a nil `err` the verb prints as a bad verb and nothing is wrapped. -/
def errorfW (front : String) (err : Option GoError) : GoError :=
  match err with
  | some v => .wrapError (front ++ v.Error) v
  | none => .base (front ++ "%!w(<nil>)")

/-- What the evaluation goroutine does that others can see. -/
inductive TaskEvent where
  | receive (err : Option GoError)
  | send (c : Chan) (msg : GoError)
  | panicked (p : Panic)
deriving DecidableEq, Repr

/-- The error that the evaluation goroutine builds for an escalated `err`, from
the name and uid it read from the policy: the first `fmt.Errorf` when the uid is
not empty, the second otherwise. -/
def escalationError (name uid : String) (err : Option GoError) : GoError :=
  if uid ≠ "" then
    errorfW ("async error policy '" ++ name ++ "' (" ++ uid ++ ") escalated: ") err
  else
    errorfW ("async error policy '" ++ name ++ "' escalated: ") err

/-- The name that the evaluation goroutine uses for the policy. -/
def displayName (policy : Policy) : String :=
  if policy.GetName = "" then "<unnamed>" else policy.GetName

/-- Body of the goroutine that the worker of `RegisterPolicy` starts for the
error `err` it took from the intake channel. -/
def evalTask (h : escalator) (policy : Policy) (err : Option GoError) : List TaskEvent :=
  let name := displayName policy
  let uid := policy.GetUniqID
  match policy.Receive err with
  | .error p => [.receive err, .panicked p]
  | .ok false => [.receive err]
  | .ok true => [.receive err, .send h.errEscalationChan (escalationError name uid err)]

/-- Channel sends in a list of events: the channel and the message of each. -/
def sends : List TaskEvent → List (Chan × GoError)
  | [] => []
  | .send c msg :: rest => (c, msg) :: sends rest
  | _ :: rest => sends rest

/-- Arguments of the calls of `Receive` in a list of events. -/
def receiveCalls : List TaskEvent → List (Option GoError)
  | [] => []
  | .receive err :: rest => err :: receiveCalls rest
  | _ :: rest => receiveCalls rest

/-! ### Sequences of calls on one escalator -/

/-- A call on the escalator. -/
inductive Op where
  | register (policy : Policy) (errorChanID closeChanID : Nat)
  | unregister (policy : Policy)

/-- The calls of a list made one after the other, a panic being recovered by the
caller: the escalator at the end and all actions performed, in order. `limit` is
the largest buffer size that `make` accepts, as in `RegisterPolicy`. -/
def escalator.exec (h : escalator) (limit : Int) : List Op → escalator × List Effect
  | [] => (h, [])
  | .register policy errorChanID closeChanID :: rest =>
    let res := h.RegisterPolicy policy limit errorChanID closeChanID
    let out := escalator.exec res.h limit rest
    (out.1, res.effects ++ out.2)
  | .unregister policy :: rest =>
    let res := h.UnregisterPolicy policy
    let out := escalator.exec res.h limit rest
    (out.1, res.effects ++ out.2)

/-- Number of calls of `Close` on the policy object `ref` among actions. -/
def closeCount (ref : Nat) (effects : List Effect) : Nat :=
  effects.countP (fun
    | .policyClose p => p == ref
    | _ => false)

/-- Number of workers started for the policy object `ref` among actions: the
number of successful registrations of that object. -/
def workerCount (ref : Nat) (effects : List Effect) : Nat :=
  effects.countP (fun
    | .goWorker p _ _ => p == ref
    | _ => false)

/-- Number of registry entries whose closure holds the policy object `ref`. -/
def escalator.recordCount (h : escalator) (ref : Nat) : Nat :=
  match h.policies with
  | none => 0
  | some m => m.countP (fun kv => kv.2.policy == ref)

/-! ### Threshold policy: states of a run and a reference without compaction -/

/-- The policy left behind by successive calls of `Receive`, each with its clock
reading and its non-nil error. -/
def ThresholdEscalationPolicy.afterAll (e : ThresholdEscalationPolicy)
    (calls : List (Time × GoError)) : ThresholdEscalationPolicy :=
  calls.foldl (fun e c => e.after c.1 c.2) e

/-- Reference policy of the refinement C13, written from the words of the claim:
a policy that never compacts. It keeps every record it received. -/
structure ReferencePolicy where
  ErrorCount : Int
  TimeWindow : Duration
  records : List errorTimeRecord
deriving DecidableEq, Repr

/-- Reference `Receive`: store the record and return whether the number of all
records received so far with `now - At <= TimeWindow` is at least `ErrorCount`. -/
def ReferencePolicy.Receive (p : ReferencePolicy) (now : Time) (err : GoError) :
    ReferencePolicy × Bool :=
  let records := p.records ++ [{ At := now, Err := some err }]
  ({ p with records := records },
    decide (((records.countP (fun r => decide (Time.Sub now r.At ≤ p.TimeWindow)) : Nat) : Int)
      ≥ p.ErrorCount))

/-- Successive calls of the reference `Receive`; the booleans in call order. -/
def ReferencePolicy.run (p : ReferencePolicy) : List (Time × GoError) → List Bool
  | [] => []
  | (now, err) :: rest => (p.Receive now err).2 :: ReferencePolicy.run (p.Receive now err).1 rest

/-- The booleans of a run of `Receive`; `none` stands for a call that panicked. -/
def decisionsOf (outcomes : List (Except Panic ThresholdEscalationPolicy.Returned)) :
    List (Option Bool) :=
  outcomes.map (fun o =>
    match o with
    | .ok r => some r.escalate
    | .error _ => none)

/-! ### Worker, evaluation goroutines and teardown as a transition system

The goroutines that `RegisterPolicy` starts for one policy, the producers that
send on its intake channel, the consumer of the escalation channel and the
closure `closer` run concurrently. Their interleavings are the sequences of
atomic actions below; an action that blocks (or is not the next statement of its
goroutine) in a state is not enabled there. -/

/-- An evaluation goroutine, by how far it has come: created by the `go`
statement; inside `policy.Receive(err)`; at the send of its message on the
escalation channel. A goroutine that has ended is dropped. -/
inductive Task where
  | started (err : Option GoError)
  | inReceive (err : Option GoError)
  | sending (msg : GoError)
deriving DecidableEq, Repr

/-- Statements of the closure `closer` already executed. -/
inductive CloserPc where
  | notStarted
  | closedErrorChan
  | calledClose
  | closedCloseChan
deriving DecidableEq, Repr

/-- State of the goroutines and channels of one registered policy. `produced`
lists the values that producers sent on the intake channel, `received` the
arguments of the calls of `policy.Receive` made so far. -/
structure Dispatch where
  name : String
  uid : String
  errorChanCap : Nat
  errorChanBuf : List (Option GoError)
  errorChanClosed : Bool
  closeChanClosed : Bool
  workerRunning : Bool
  tasks : List Task
  escalationCap : Nat
  escalationBuf : List GoError
  closer : CloserPc
  produced : List (Option GoError)
  received : List (Option GoError)
deriving DecidableEq, Repr

/-- Atomic actions: a producer's send on the intake channel completes; the
worker's `select` takes `case err := <-errorChan`; it takes `case <-closeChan`;
evaluation goroutine `i` calls `Receive`; that call returns `escalate`; the
goroutine's send on the escalation channel completes; the application receives
from the escalation channel; `closer` executes its next statement. -/
inductive Action where
  | produce (v : Option GoError)
  | workerReceive
  | workerReturn
  | taskCall (i : Nat)
  | taskReturn (i : Nat) (escalate : Bool)
  | taskSend (i : Nat)
  | consume
  | closerStep
deriving DecidableEq, Repr

namespace Dispatch

/-- The state right after `RegisterPolicy`: both channels open and empty, the
worker in its loop, no evaluation goroutine, `closer` not called. -/
def init (name uid : String) (errorChanCap : Nat) : Dispatch :=
  { name := name, uid := uid, errorChanCap := errorChanCap, errorChanBuf := [],
    errorChanClosed := false, closeChanClosed := false, workerRunning := true, tasks := [],
    escalationCap := 32, escalationBuf := [], closer := .notStarted, produced := [],
    received := [] }

/-- One atomic action; `none` when the action is not enabled in the state. A
receive from the intake channel takes the oldest buffered value, or the zero
value `nil` at once when the channel is closed and empty. A send on the closed
intake channel and a second `close` of a channel panic; they are not enabled. -/
def step (s : Dispatch) : Action → Option Dispatch
  | .produce v =>
    if s.errorChanClosed = false ∧ s.errorChanBuf.length < s.errorChanCap then
      some { s with errorChanBuf := s.errorChanBuf ++ [v], produced := s.produced ++ [v] }
    else none
  | .workerReceive =>
    if s.workerRunning then
      match s.errorChanBuf with
      | err :: rest =>
        some { s with errorChanBuf := rest, tasks := s.tasks ++ [.started err] }
      | [] =>
        if s.errorChanClosed then some { s with tasks := s.tasks ++ [.started none] }
        else none
    else none
  | .workerReturn =>
    if s.workerRunning ∧ s.closeChanClosed then some { s with workerRunning := false }
    else none
  | .taskCall i =>
    match s.tasks[i]? with
    | some (.started err) =>
      some { s with tasks := s.tasks.set i (.inReceive err), received := s.received ++ [err] }
    | _ => none
  | .taskReturn i escalate =>
    match s.tasks[i]? with
    | some (.inReceive err) =>
      let name := if s.name = "" then "<unnamed>" else s.name
      if escalate then
        some { s with tasks := s.tasks.set i (.sending (escalationError name s.uid err)) }
      else some { s with tasks := s.tasks.eraseIdx i }
    | _ => none
  | .taskSend i =>
    match s.tasks[i]? with
    | some (.sending msg) =>
      if s.escalationBuf.length < s.escalationCap then
        some { s with tasks := s.tasks.eraseIdx i, escalationBuf := s.escalationBuf ++ [msg] }
      else none
    | _ => none
  | .consume =>
    match s.escalationBuf with
    | _ :: rest => some { s with escalationBuf := rest }
    | [] => none
  | .closerStep =>
    match s.closer with
    | .notStarted =>
      if s.errorChanClosed then none
      else some { s with errorChanClosed := true, closer := .closedErrorChan }
    | .closedErrorChan => some { s with closer := .calledClose }
    | .calledClose =>
      if s.closeChanClosed then none
      else some { s with closeChanClosed := true, closer := .closedCloseChan }
    | .closedCloseChan => none

/-- A sequence of atomic actions, each enabled where it happens. -/
def steps (s : Dispatch) : List Action → Option Dispatch
  | [] => some s
  | a :: rest =>
    match s.step a with
    | some s' => steps s' rest
    | none => none

end Dispatch

/-! ## Lemmas on time -/

theorem Time.Sub_le_Sub_left {t t' : Int} (u : Int) (h : t ≤ t') :
    Time.Sub t u ≤ Time.Sub t' u := by
  unfold Time.Sub maxDuration minDuration
  split_ifs <;> omega

theorem Time.Sub_le_Sub_right (t : Int) {u u' : Int} (h : u ≤ u') :
    Time.Sub t u' ≤ Time.Sub t u := by
  unfold Time.Sub maxDuration minDuration
  split_ifs <;> omega

theorem Time.Sub_self (t : Int) : Time.Sub t t = 0 := by
  unfold Time.Sub maxDuration minDuration
  split_ifs <;> omega

/-- Below the largest duration, and for `u ≤ t`, the saturating difference passes
a bound exactly when the plain difference does. -/
theorem Time.Sub_le_iff {t u W : Int} (hut : u ≤ t) (hW : W < maxDuration) :
    Time.Sub t u ≤ W ↔ t - u ≤ W := by
  unfold Time.Sub
  unfold maxDuration minDuration at *
  split_ifs <;> omega

/-! ## Lemmas on the threshold policy -/

namespace ThresholdEscalationPolicy

/-- The scanning loop counts the records in the window and, when compacting,
collects them in order. -/
theorem foldl_scanStep (now : Time) (W : Duration) (pc : Bool) (l : List errorTimeRecord)
    (c : Nat) (acc : List errorTimeRecord) :
    l.foldl (scanStep now W pc) (c, acc) =
      (c + l.countP (inWindow now W),
        if pc then acc ++ l.filter (inWindow now W) else acc) := by
  induction l generalizing c acc with
  | nil => cases pc <;> simp
  | cons r l ih =>
    rw [List.foldl_cons, scanStep]
    by_cases hr : Time.Sub now r.At ≤ W
    · have hp : inWindow now W r = true := by simp [inWindow, hr]
      rw [if_pos hr, ih, List.countP_cons_of_pos _ _ hp, List.filter_cons_of_pos hp]
      cases pc <;> simp <;> omega
    · have hp : ¬ inWindow now W r = true := by simp [inWindow, hr]
      rw [if_neg hr, ih, List.countP_cons_of_neg _ _ hp, List.filter_cons_of_neg hp]

/-- A call of `Receive` with a non-nil error returns, and its boolean compares the
number of in-window records of the extended window with `ErrorCount`. -/
theorem Receive_some (e : ThresholdEscalationPolicy) (now : Time) (err : GoError) :
    ∃ logged, (e.Receive now (some err)).2 = .ok
      { escalate := decide
          ((((e.errors ++ [(⟨now, some err⟩ : errorTimeRecord)]).countP
            (inWindow now e.TimeWindow) : Nat) : Int) ≥ e.ErrorCount),
        logged := logged } := by
  simp only [Receive, Option.isNone_some, Bool.and_false, Bool.false_eq_true, if_false,
    foldl_scanStep, Nat.zero_add]
  exact ⟨_, rfl⟩

theorem after_errors (e : ThresholdEscalationPolicy) (now : Time) (err : GoError) :
    (e.after now err).errors =
      if Time.Sub now e.lastCompression > e.TimeWindow then
        (e.errors ++ [(⟨now, some err⟩ : errorTimeRecord)]).filter (inWindow now e.TimeWindow)
      else e.errors ++ [(⟨now, some err⟩ : errorTimeRecord)] := by
  simp only [after, Receive, Option.isNone_some, Bool.and_false, Bool.false_eq_true, if_false,
    foldl_scanStep]
  by_cases h : Time.Sub now e.lastCompression > e.TimeWindow <;> simp [h]

theorem after_lastCompression (e : ThresholdEscalationPolicy) (now : Time) (err : GoError) :
    (e.after now err).lastCompression =
      if Time.Sub now e.lastCompression > e.TimeWindow then now else e.lastCompression := by
  simp only [after, Receive, Option.isNone_some, Bool.and_false, Bool.false_eq_true, if_false]
  by_cases h : Time.Sub now e.lastCompression > e.TimeWindow <;> simp [h]

theorem after_config (e : ThresholdEscalationPolicy) (now : Time) (err : GoError) :
    (e.after now err).ErrorCount = e.ErrorCount ∧ (e.after now err).TimeWindow = e.TimeWindow := by
  simp only [after, Receive, Option.isNone_some, Bool.and_false, Bool.false_eq_true, if_false]
  by_cases h : Time.Sub now e.lastCompression > e.TimeWindow <;> simp [h]

theorem run_cons_some (e : ThresholdEscalationPolicy) (now : Time) (err : GoError)
    (rest : List (Time × Option GoError)) :
    ∃ r, (e.Receive now (some err)).2 = .ok r ∧
      e.run ((now, some err) :: rest) = .ok r :: (e.after now err).run rest := by
  obtain ⟨logged, h⟩ := Receive_some e now err
  refine ⟨_, h, ?_⟩
  rw [run, after]
  rcases hr : e.Receive now (some err) with ⟨e', res⟩
  rw [hr] at h
  simp only at h
  subst h
  rfl

/-- A window that agrees with a history on every instant from `lo` on still does
so after a call of `Receive` at `now ≥ lo`, from `now` on and for the history
extended by the new record. -/
theorem after_agrees (e : ThresholdEscalationPolicy) (H : List errorTimeRecord) (lo : Int)
    (hinv : ∀ t : Int, lo ≤ t →
      e.errors.filter (inWindow t e.TimeWindow) = H.filter (inWindow t e.TimeWindow))
    (now : Time) (err : GoError) (hlo : lo ≤ now) :
    ∀ t : Int, now ≤ t →
      (e.after now err).errors.filter (inWindow t e.TimeWindow) =
        (H ++ [(⟨now, some err⟩ : errorTimeRecord)]).filter (inWindow t e.TimeWindow) := by
  intro t ht
  have hbase : (e.errors ++ [(⟨now, some err⟩ : errorTimeRecord)]).filter
      (inWindow t e.TimeWindow) =
      (H ++ [(⟨now, some err⟩ : errorTimeRecord)]).filter (inWindow t e.TimeWindow) := by
    rw [List.filter_append, List.filter_append, hinv t (le_trans hlo ht)]
  rw [after_errors]
  split_ifs with hc
  · rw [List.filter_filter, ← hbase]
    apply List.filter_congr
    intro r _
    by_cases hr : inWindow t e.TimeWindow r = true
    · have h1 : Time.Sub t r.At ≤ e.TimeWindow := by simpa [inWindow] using hr
      have h2 : Time.Sub now r.At ≤ e.TimeWindow := le_trans (Time.Sub_le_Sub_left r.At ht) h1
      simp [inWindow, h1, h2]
    · simp only [Bool.not_eq_true] at hr
      simp [hr]
  · exact hbase

/-- Decisions of a run: when the stored window agrees with a history `H` and the
calls come at non-decreasing instants, call `k` compares with `ErrorCount` the
number of records of `H` and of the calls up to `k` that lie in its window. -/
theorem run_decisions (calls : List (Time × GoError)) :
    ∀ (e : ThresholdEscalationPolicy) (H : List errorTimeRecord) (lo : Int),
      (∀ t : Int, lo ≤ t →
        e.errors.filter (inWindow t e.TimeWindow) = H.filter (inWindow t e.TimeWindow)) →
      (∀ c ∈ calls, lo ≤ c.1) →
      (calls.map Prod.fst).Pairwise (· ≤ ·) →
      ∀ k : Nat, k < calls.length →
        ∃ r, (e.run (withErrors calls))[k]? = some (.ok r) ∧
          r.escalate = decide
            ((((H ++ (calls.take (k + 1)).map recordOf).countP
              (inWindow (timeAt calls k) e.TimeWindow) : Nat) : Int) ≥ e.ErrorCount) := by
  induction calls with
  | nil => intro e H lo _ _ _ k hk; simp at hk
  | cons c rest ih =>
    intro e H lo hinv hlo hsorted k hk
    obtain ⟨now, err⟩ := c
    obtain ⟨r0, hr0, hrun⟩ := run_cons_some e now err (withErrors rest)
    have hrun' : e.run (withErrors ((now, err) :: rest)) =
        .ok r0 :: (e.after now err).run (withErrors rest) := by
      simpa [withErrors] using hrun
    have hnow : lo ≤ now := hlo (now, err) (List.mem_cons_self _ _)
    cases k with
    | zero =>
      refine ⟨r0, by rw [hrun']; simp, ?_⟩
      obtain ⟨logged, h⟩ := Receive_some e now err
      rw [h] at hr0
      injection hr0 with hr0
      subst hr0
      have hcount : (e.errors ++ [(⟨now, some err⟩ : errorTimeRecord)]).countP
          (inWindow now e.TimeWindow) =
          (H ++ [(⟨now, some err⟩ : errorTimeRecord)]).countP (inWindow now e.TimeWindow) := by
        rw [List.countP_eq_length_filter, List.countP_eq_length_filter, List.filter_append,
          List.filter_append, hinv now hnow]
      simp only [timeAt, List.map_cons, List.getD_cons_zero, List.take_succ_cons, List.take_zero,
        List.map_nil, recordOf, hcount]
    | succ k =>
      have hk' : k < rest.length := by simpa using hk
      rw [List.map_cons, List.pairwise_cons] at hsorted
      have hlo' : ∀ c ∈ rest, now ≤ c.1 := fun c hc =>
        hsorted.1 c.1 (List.mem_map_of_mem Prod.fst hc)
      have hcfg := after_config e now err
      have hinv' := after_agrees e H lo hinv now err hnow
      rw [← hcfg.2] at hinv'
      obtain ⟨r, hr, hdec⟩ := ih (e.after now err) (H ++ [(⟨now, some err⟩ : errorTimeRecord)])
        now hinv' hlo' hsorted.2 k hk'
      refine ⟨r, by rw [hrun']; simpa using hr, ?_⟩
      rw [hdec, hcfg.1, hcfg.2]
      simp [timeAt, recordOf, List.append_assoc]

end ThresholdEscalationPolicy

/-- For a predicate that, once true, stays true further along the list, at least
`m ≥ 1` elements satisfy it exactly when the `m`-th element from the end does. -/
theorem le_countP_iff_of_upward {α : Type} (p : α → Bool) (l : List α)
    (hp : l.Pairwise (fun a b => p a = true → p b = true)) (m : Nat) (hm : 1 ≤ m) :
    m ≤ l.countP p ↔ m ≤ l.length ∧ ∃ x, l[l.length - m]? = some x ∧ p x = true := by
  induction l with
  | nil => simp; omega
  | cons a l ih =>
    rw [List.pairwise_cons] at hp
    by_cases ha : p a = true
    · have hall : ∀ b ∈ a :: l, p b = true := by
        intro b hb
        rcases List.mem_cons.1 hb with rfl | hb
        · exact ha
        · exact hp.1 b hb ha
      rw [List.countP_eq_length.2 hall]
      constructor
      · intro hle
        refine ⟨hle, ?_⟩
        have hi : (a :: l).length - m < (a :: l).length := by
          simp only [List.length_cons] at hle ⊢; omega
        exact ⟨(a :: l)[(a :: l).length - m], List.getElem?_eq_getElem hi,
          hall _ (List.getElem_mem hi)⟩
      · exact fun h => h.1
    · rw [List.countP_cons_of_neg _ _ ha, ih hp.2]
      simp only [List.length_cons]
      by_cases hml : m ≤ l.length
      · have hidx : l.length + 1 - m = (l.length - m) + 1 := by omega
        rw [hidx, List.getElem?_cons_succ]
        constructor
        · exact fun h => ⟨by omega, h.2⟩
        · exact fun h => ⟨hml, h.2⟩
      · constructor
        · exact fun h => absurd h.1 hml
        · rintro ⟨hle, x, hx, hpx⟩
          have hm' : l.length + 1 - m = 0 := by omega
          rw [hm', List.getElem?_cons_zero] at hx
          injection hx with hx
          subst hx
          exact absurd hpx ha

/-! ## Threshold policy: decision and compaction -/

namespace ThresholdEscalationPolicy

/-- C1: for every prior state, every (non-nil) error and every clock reading
`now`, `Receive` returns, and it returns true if and only if the number of
records of the prior stored window with the record `(now, err)` appended that
satisfy `now.Sub(At) <= TimeWindow` is at least `ErrorCount`; the count ranges
over the whole stored window and includes the error just received. -/
theorem Receive_decision (e : ThresholdEscalationPolicy) (now : Time) (err : GoError) :
    ∃ r, (e.Receive now (some err)).2 = .ok r ∧
      (r.escalate = true ↔
        (((e.errors ++ [(⟨now, some err⟩ : errorTimeRecord)]).countP
          (fun errRecord => decide (Time.Sub now errRecord.At ≤ e.TimeWindow)) : Nat) : Int)
          ≥ e.ErrorCount) := by
  obtain ⟨logged, h⟩ := Receive_some e now err
  have hw : inWindow now e.TimeWindow =
      fun errRecord => decide (Time.Sub now errRecord.At ≤ e.TimeWindow) := rfl
  rw [hw] at h
  exact ⟨_, h, by simp⟩

/-- C2: sliding-window characterisation. From a fresh policy with
`ErrorCount = n ≥ 1` and `TimeWindow = W` (any `W`, so in particular `W ≥ 0`),
for calls of `Receive` at non-decreasing clock readings, call number `k + 1`
returns, and it returns true if and only if `k + 1 ≥ n` and the reading of that
call minus the reading of the call `n - 1` places earlier is at most `W`; the
difference is the one `Receive` takes, `time.Time.Sub`, which for every `W`
below the largest duration bounds the plain difference of the readings alike. -/
theorem Receive_sliding_window (n : Int) (W : Duration) (name uniqID : String) (logEvery : Int)
    (calls : List (Time × GoError)) (hn : 1 ≤ n)
    (hsorted : (calls.map Prod.fst).Pairwise (· ≤ ·)) (k : Nat) (hk : k < calls.length) :
    ∃ r, ((fresh n W name uniqID logEvery).run (withErrors calls))[k]? = some (.ok r) ∧
      (r.escalate = true ↔
        n ≤ (k : Int) + 1 ∧
          Time.Sub (timeAt calls k) (timeAt calls (k + 1 - n.toNat)) ≤ W) ∧
      (W < maxDuration →
        (r.escalate = true ↔
          n ≤ (k : Int) + 1 ∧ timeAt calls k - timeAt calls (k + 1 - n.toNat) ≤ W)) := by
  obtain ⟨lo, hlo⟩ : ∃ lo : Int, ∀ c ∈ calls, lo ≤ c.1 := by
    cases calls with
    | nil => exact ⟨0, by simp⟩
    | cons c rest =>
      rw [List.map_cons, List.pairwise_cons] at hsorted
      refine ⟨c.1, fun d hd => ?_⟩
      rcases List.mem_cons.1 hd with rfl | hd
      · exact le_refl _
      · exact hsorted.1 d.1 (List.mem_map_of_mem Prod.fst hd)
  obtain ⟨r, hr, hdec⟩ := run_decisions calls (fresh n W name uniqID logEvery) [] lo
    (fun _ _ => rfl) hlo hsorted k hk
  have hmono : timeAt calls (k + 1 - n.toNat) ≤ timeAt calls k := by
    have hi : k + 1 - n.toNat < (calls.map Prod.fst).length := by
      rw [List.length_map]; omega
    have hk' : k < (calls.map Prod.fst).length := by rw [List.length_map]; exact hk
    have hsorted' : (calls.map Prod.fst).Sorted (· ≤ ·) := hsorted
    have := hsorted'.rel_get_of_le (a := ⟨k + 1 - n.toNat, hi⟩) (b := ⟨k, hk'⟩)
      (by simp only [Fin.mk_le_mk]; omega)
    simpa [timeAt, List.getD_eq_getElem?_getD, List.getElem?_eq_getElem hi,
      List.getElem?_eq_getElem hk'] using this
  suffices hmain : r.escalate = true ↔
      n ≤ (k : Int) + 1 ∧ Time.Sub (timeAt calls k) (timeAt calls (k + 1 - n.toNat)) ≤ W by
    refine ⟨r, hr, hmain, fun hW => ?_⟩
    rw [hmain, Time.Sub_le_iff hmono hW]
  have hfresh : (fresh n W name uniqID logEvery).TimeWindow = W ∧
      (fresh n W name uniqID logEvery).ErrorCount = n := ⟨rfl, rfl⟩
  rw [hfresh.1, hfresh.2, List.nil_append] at hdec
  -- the records of the first `k + 1` calls and the window test of call `k`
  set l := (calls.take (k + 1)).map recordOf with hl
  have hlen : l.length = k + 1 := by
    simp only [hl, List.length_map, List.length_take]; omega
  have hget : ∀ i, i ≤ k → ∃ x, l[i]? = some x ∧ x.At = timeAt calls i := by
    intro i hi
    have hi' : i < calls.length := by omega
    refine ⟨recordOf calls[i], ?_, ?_⟩
    · simp only [hl, List.getElem?_map, List.getElem?_take]
      rw [if_pos (by omega), List.getElem?_eq_getElem hi']
      rfl
    · simp [recordOf, timeAt, List.getD_eq_getElem?_getD, List.getElem?_eq_getElem hi']
  have hup : l.Pairwise (fun a b =>
      inWindow (timeAt calls k) W a = true → inWindow (timeAt calls k) W b = true) := by
    have h1 : (calls.take (k + 1)).Pairwise (fun a b => a.1 ≤ b.1) :=
      (List.pairwise_map.1 hsorted).sublist (List.take_sublist _ _)
    rw [hl, List.pairwise_map]
    refine h1.imp ?_
    intro a b hab ha
    simp only [inWindow, recordOf, decide_eq_true_eq] at ha ⊢
    exact le_trans (Time.Sub_le_Sub_right _ hab) ha
  have hm : 1 ≤ n.toNat := by omega
  have hcount := le_countP_iff_of_upward (inWindow (timeAt calls k) W) l hup n.toNat hm
  rw [hdec, decide_eq_true_eq]
  have hcast : ((l.countP (inWindow (timeAt calls k) W) : Nat) : Int) ≥ n ↔
      n.toNat ≤ l.countP (inWindow (timeAt calls k) W) := by omega
  rw [hcast, hcount, hlen]
  constructor
  · rintro ⟨hle, x, hx, hpx⟩
    refine ⟨by omega, ?_⟩
    obtain ⟨y, hy, hyAt⟩ := hget (k + 1 - n.toNat) (by omega)
    rw [hy] at hx
    injection hx with hx
    subst hx
    rw [← hyAt]
    simpa [inWindow] using hpx
  · rintro ⟨hle, hsub⟩
    refine ⟨by omega, ?_⟩
    obtain ⟨y, hy, hyAt⟩ := hget (k + 1 - n.toNat) (by omega)
    exact ⟨y, hy, by rw [← hyAt] at hsub; simpa [inWindow] using hsub⟩

/-- Witness of C2 with `ErrorCount = 3` and a window of one second: of three
errors within 500 ms the third is escalated; of three errors 600 ms apart the
third is not. -/
theorem Receive_sliding_window_witness :
    (∃ r, ((fresh 3 1000000000 "p" "" 0).run (withErrors
        [(63900000000000000000, .base "a"), (63900000000250000000, .base "b"),
         (63900000000500000000, .base "c")]))[2]? = some (.ok r) ∧ r.escalate = true) ∧
    (∃ r, ((fresh 3 1000000000 "p" "" 0).run (withErrors
        [(63900000000000000000, .base "a"), (63900000000600000000, .base "b"),
         (63900000001200000000, .base "c")]))[2]? = some (.ok r) ∧ r.escalate = false) := by
  constructor
  · obtain ⟨r, hr, h⟩ := Receive_sliding_window 3 1000000000 "p" "" 0
      [(63900000000000000000, .base "a"), (63900000000250000000, .base "b"),
       (63900000000500000000, .base "c")] (by decide) (by decide) 2 (by decide)
    exact ⟨r, hr, h.1.2 (by decide)⟩
  · obtain ⟨r, hr, h⟩ := Receive_sliding_window 3 1000000000 "p" "" 0
      [(63900000000000000000, .base "a"), (63900000000600000000, .base "b"),
       (63900000001200000000, .base "c")] (by decide) (by decide) 2 (by decide)
    refine ⟨r, hr, ?_⟩
    cases hesc : r.escalate with
    | false => rfl
    | true => exact absurd (h.1.1 hesc).2 (by decide)

/-- C3 as stated fails: with `ErrorCount = 3`, the third of three errors 250 ms
apart is escalated although exactly three records, not more than three, lie in
the one-second window. -/
theorem Receive_escalates_at_ErrorCount :
    ((fresh 3 1000000000 "p" "" 0).run (withErrors
        [(63900000000000000000, .base "a"), (63900000000250000000, .base "b"),
         (63900000000500000000, .base "c")]))
      = [.ok ⟨false, none⟩, .ok ⟨false, none⟩, .ok ⟨true, none⟩] ∧
    ((((fresh 3 1000000000 "p" "" 0).after 63900000000000000000 (.base "a")).after
        63900000000250000000 (.base "b")).errors ++
        [(⟨63900000000500000000, some (.base "c")⟩ : errorTimeRecord)]).countP
      (inWindow 63900000000500000000 1000000000) = 3 :=
  ⟨rfl, by decide⟩

/-- C3 (amended): `Receive` returns true exactly when at least `ErrorCount`
records, the one just received included, lie within `TimeWindow`; so with
exactly `ErrorCount` such records it returns true, and with fewer it returns
false. -/
theorem Receive_escalates_iff_at_least (e : ThresholdEscalationPolicy) (now : Time)
    (err : GoError) :
    ∃ r, (e.Receive now (some err)).2 = .ok r ∧
      (r.escalate = true ↔
        e.ErrorCount ≤ (((e.errors ++ [(⟨now, some err⟩ : errorTimeRecord)]).countP
          (inWindow now e.TimeWindow) : Nat) : Int)) ∧
      ((((e.errors ++ [(⟨now, some err⟩ : errorTimeRecord)]).countP
          (inWindow now e.TimeWindow) : Nat) : Int) = e.ErrorCount → r.escalate = true) ∧
      ((((e.errors ++ [(⟨now, some err⟩ : errorTimeRecord)]).countP
          (inWindow now e.TimeWindow) : Nat) : Int) < e.ErrorCount → r.escalate = false) := by
  obtain ⟨logged, h⟩ := Receive_some e now err
  refine ⟨_, h, ?_, ?_, ?_⟩
  · simp only [decide_eq_true_eq, ge_iff_le]
  · intro heq
    simp only [decide_eq_true_eq, ge_iff_le]
    exact le_of_eq heq.symm
  · intro hlt
    simp only [decide_eq_false_iff_not, ge_iff_le, not_le]
    exact hlt

/-- Witness of C3: with `ErrorCount = 1` the first error, alone in its window,
is escalated. -/
theorem Receive_escalates_iff_at_least_witness :
    ∃ r, ((fresh 1 1000000000 "p" "" 0).Receive 63900000000000000000 (some (.base "a"))).2
      = .ok r ∧ r.escalate = true := by
  obtain ⟨r, hr, _, heq, _⟩ := Receive_escalates_iff_at_least (fresh 1 1000000000 "p" "" 0)
    63900000000000000000 (.base "a")
  exact ⟨r, hr, heq (by decide)⟩

/-- C4: compaction postcondition. When `now.Sub(lastCompression) > TimeWindow`,
the call returns and leaves as stored window exactly the records of the prior
window with `(now, err)` appended that satisfy `now.Sub(At) <= TimeWindow`, in
their order; its length is the count used for the decision, no stored record is
out of the window, and `lastCompression` is `now`. -/
theorem Receive_compaction (e : ThresholdEscalationPolicy) (now : Time) (err : GoError)
    (hgap : Time.Sub now e.lastCompression > e.TimeWindow) :
    (e.Receive now (some err)).1.errors =
        (e.errors ++ [(⟨now, some err⟩ : errorTimeRecord)]).filter
          (fun errRecord => decide (Time.Sub now errRecord.At ≤ e.TimeWindow)) ∧
      List.Sublist (e.Receive now (some err)).1.errors
        (e.errors ++ [(⟨now, some err⟩ : errorTimeRecord)]) ∧
      (∀ errRecord ∈ (e.Receive now (some err)).1.errors,
        Time.Sub now errRecord.At ≤ e.TimeWindow) ∧
      (e.Receive now (some err)).1.lastCompression = now ∧
      ∃ r, (e.Receive now (some err)).2 = .ok r ∧
        (r.escalate = true ↔
          (((e.Receive now (some err)).1.errors.length : Nat) : Int) ≥ e.ErrorCount) := by
  have hw : inWindow now e.TimeWindow =
      fun errRecord => decide (Time.Sub now errRecord.At ≤ e.TimeWindow) := rfl
  have herr := after_errors e now err
  have hlast := after_lastCompression e now err
  rw [if_pos hgap, hw] at herr
  rw [if_pos hgap] at hlast
  simp only [after] at herr hlast
  refine ⟨herr, ?_, ?_, hlast, ?_⟩
  · rw [herr]; exact List.filter_sublist _
  · intro errRecord hmem
    rw [herr, List.mem_filter] at hmem
    simpa using hmem.2
  · obtain ⟨logged, h⟩ := Receive_some e now err
    refine ⟨_, h, ?_⟩
    rw [herr, ← List.countP_eq_length_filter, hw]
    simp

/-- Witness of C4: a policy that last compacted at second 1 and holds one record
of that instant receives an error at second 3 with a window of one second. -/
theorem Receive_compaction_witness :
    Time.Sub 3000000000 1000000000 > 1000000000 ∧
      (Receive
        { ErrorCount := 2, TimeWindow := 1000000000, Name := "p", UniqID := "", LogEvery := 0,
          lastCompression := 1000000000, skippedSinceLastLog := 0,
          errors := [⟨1000000000, some (.base "a")⟩] }
        3000000000 (some (.base "b"))).1.errors = [⟨3000000000, some (.base "b")⟩] :=
  ⟨by decide,
    (Receive_compaction
      { ErrorCount := 2, TimeWindow := 1000000000, Name := "p", UniqID := "", LogEvery := 0,
        lastCompression := 1000000000, skippedSinceLastLog := 0,
        errors := [⟨1000000000, some (.base "a")⟩] }
      3000000000 (.base "b") (by decide)).1.trans (by decide)⟩

end ThresholdEscalationPolicy

/-! ## Immediate policy -/

/-- C5: `ImmediateEscalationPolicy.Receive` returns true for every non-nil error
and every value of `Name`, `UniqID` and `Log`; `Log` only decides whether the
text of the error is logged. -/
theorem ImmediateEscalationPolicy.Receive_true (name uniqID : String) (log : Bool)
    (err : GoError) :
    ImmediateEscalationPolicy.Receive { Name := name, UniqID := uniqID, Log := log } (some err) =
      .ok (true, if log then some err.Error else none) := by
  cases log <;> rfl

/-! ## Escalator: registry -/

theorem uidForPolicy_eq (policy : Policy) :
    uidForPolicy policy =
      if identity policy = "" then .error .noNameOrUniqID else .ok (identity policy) := by
  unfold uidForPolicy identity
  by_cases hu : policy.GetUniqID = "" <;> by_cases hn : policy.GetName = "" <;> simp [hu, hn]

namespace escalator

theorem lookup_isSome_iff (h : escalator) (k : String) :
    (h.lookup k).isSome = true ↔ k ∈ h.keys := by
  unfold lookup keys
  cases h.policies with
  | none => simp
  | some m => simp

theorem lookup_eq_none_iff (h : escalator) (k : String) :
    h.lookup k = none ↔ k ∉ h.keys := by
  rw [← lookup_isSome_iff]
  cases h.lookup k <;> simp

theorem keys_some_getD (h : escalator) :
    keys { h with policies := some (h.policies.getD []) } = h.keys := by
  cases hp : h.policies <;> simp [keys, hp]

/-- A successful registration: the identity is not empty and not a key, and
`make` accepts the buffer size. -/
theorem RegisterPolicy_ok (h : escalator) (policy : Policy) (limit : Int)
    (errorChanID closeChanID : Nat)
    (hid : identity policy ≠ "") (hnew : identity policy ∉ h.keys)
    (hfit : bufSize policy ≤ limit) :
    h.RegisterPolicy policy limit errorChanID closeChanID =
      { h := { h with policies := some (mapAssign (h.policies.getD []) (identity policy)
          { uid := identity policy, errorChan := ⟨errorChanID, bufSize policy⟩,
            policy := policy.ref, closeChan := ⟨closeChanID, 0⟩ }) },
        effects := [.makeChan ⟨errorChanID, bufSize policy⟩, .makeChan ⟨closeChanID, 0⟩,
          .goWorker policy.ref ⟨errorChanID, bufSize policy⟩ ⟨closeChanID, 0⟩],
        ret := .ok ⟨errorChanID, bufSize policy⟩ } := by
  have hl : (lookup { h with policies := some (h.policies.getD []) } (identity policy)).isSome
      = false := by
    rw [Bool.eq_false_iff, Ne, lookup_isSome_iff, keys_some_getD]
    exact hnew
  have hfit' : ¬ bufSize policy > limit := not_lt.2 hfit
  cases hp : h.policies <;>
    simp [RegisterPolicy, uidForPolicy_eq, hid, hp] <;>
    (rw [hp] at hl; simp at hl; simp [hl, hfit'])

/-- A registration refused for the identity: the escalator keeps its keys,
nothing is done. -/
theorem RegisterPolicy_error (h : escalator) (policy : Policy) (limit : Int)
    (errorChanID closeChanID : Nat)
    (hbad : identity policy = "" ∨ identity policy ∈ h.keys) :
    (h.RegisterPolicy policy limit errorChanID closeChanID).h =
        { h with policies := some (h.policies.getD []) } ∧
      (h.RegisterPolicy policy limit errorChanID closeChanID).effects = [] ∧
      (h.RegisterPolicy policy limit errorChanID closeChanID).ret =
        .error (if identity policy = "" then .noNameOrUniqID
          else .alreadyRegistered (identity policy)) := by
  by_cases hid : identity policy = ""
  · cases hp : h.policies <;> simp [RegisterPolicy, uidForPolicy_eq, hid, hp]
  · have hmem : identity policy ∈ h.keys := hbad.resolve_left hid
    have hl : (lookup { h with policies := some (h.policies.getD []) } (identity policy)).isSome
        = true := by
      rw [lookup_isSome_iff, keys_some_getD]
      exact hmem
    cases hp : h.policies <;>
      simp [RegisterPolicy, uidForPolicy_eq, hid, hp] <;>
      (rw [hp] at hl; simp at hl; simp [hl])

/-- A registration whose intake channel `make` refuses: the escalator keeps its
keys, nothing is done. -/
theorem RegisterPolicy_makechan (h : escalator) (policy : Policy) (limit : Int)
    (errorChanID closeChanID : Nat)
    (hid : identity policy ≠ "") (hnew : identity policy ∉ h.keys)
    (hbig : bufSize policy > limit) :
    (h.RegisterPolicy policy limit errorChanID closeChanID).h =
        { h with policies := some (h.policies.getD []) } ∧
      (h.RegisterPolicy policy limit errorChanID closeChanID).effects = [] ∧
      (h.RegisterPolicy policy limit errorChanID closeChanID).ret =
        .error .makechanSizeOutOfRange := by
  have hl : (lookup { h with policies := some (h.policies.getD []) } (identity policy)).isSome
      = false := by
    rw [Bool.eq_false_iff, Ne, lookup_isSome_iff, keys_some_getD]
    exact hnew
  cases hp : h.policies <;>
    simp [RegisterPolicy, uidForPolicy_eq, hid, hp] <;>
    (rw [hp] at hl; simp at hl; simp [hl, hbig])

/-- Every failed registration leaves the escalator with its keys and does
nothing. -/
theorem RegisterPolicy_failed (h : escalator) (policy : Policy) (limit : Int)
    (errorChanID closeChanID : Nat)
    (hbad : identity policy = "" ∨ identity policy ∈ h.keys ∨ bufSize policy > limit) :
    (h.RegisterPolicy policy limit errorChanID closeChanID).h =
        { h with policies := some (h.policies.getD []) } ∧
      (h.RegisterPolicy policy limit errorChanID closeChanID).effects = [] ∧
      ∃ p, (h.RegisterPolicy policy limit errorChanID closeChanID).ret = .error p := by
  by_cases hident : identity policy = "" ∨ identity policy ∈ h.keys
  · obtain ⟨h1, h2, h3⟩ := RegisterPolicy_error h policy limit errorChanID closeChanID hident
    exact ⟨h1, h2, _, h3⟩
  · rw [not_or] at hident
    have hbig : bufSize policy > limit := by
      rcases hbad with hb | hb | hb
      · exact absurd hb hident.1
      · exact absurd hb hident.2
      · exact hb
    obtain ⟨h1, h2, h3⟩ :=
      RegisterPolicy_makechan h policy limit errorChanID closeChanID hident.1 hident.2 hbig
    exact ⟨h1, h2, _, h3⟩

/-- A registration that returned had a new, non-empty identity and a buffer size
that `make` accepts. -/
theorem RegisterPolicy_of_ok (h : escalator) (policy : Policy) (limit : Int)
    (errorChanID closeChanID : Nat) (c : Chan)
    (hc : (h.RegisterPolicy policy limit errorChanID closeChanID).ret = .ok c) :
    identity policy ≠ "" ∧ identity policy ∉ h.keys ∧ bufSize policy ≤ limit := by
  by_contra hnot
  have hbad : identity policy = "" ∨ identity policy ∈ h.keys ∨ bufSize policy > limit := by
    by_cases h1 : identity policy = ""
    · exact Or.inl h1
    · by_cases h2 : identity policy ∈ h.keys
      · exact Or.inr (Or.inl h2)
      · exact Or.inr (Or.inr (not_le.1 (fun h3 => hnot ⟨h1, h2, h3⟩)))
  obtain ⟨_, _, p, hp⟩ := RegisterPolicy_failed h policy limit errorChanID closeChanID hbad
  rw [hp] at hc
  cases hc

theorem keys_RegisterPolicy_ok (h : escalator) (policy : Policy) (limit : Int)
    (errorChanID closeChanID : Nat)
    (hid : identity policy ≠ "") (hnew : identity policy ∉ h.keys)
    (hfit : bufSize policy ≤ limit) :
    (h.RegisterPolicy policy limit errorChanID closeChanID).h.keys = identity policy :: h.keys := by
  rw [RegisterPolicy_ok h policy limit errorChanID closeChanID hid hnew hfit]
  have hfil : ∀ m : List (String × policyRecord), identity policy ∉ m.map Prod.fst →
      m.filter (fun kv => kv.1 != identity policy) = m := by
    intro m hm
    rw [List.filter_eq_self]
    intro kv hkv
    have : kv.1 ≠ identity policy := fun heq => hm (heq ▸ List.mem_map_of_mem Prod.fst hkv)
    simpa using this
  cases hp : h.policies with
  | none => simp [keys, mapAssign, hp]
  | some m =>
    have hm : identity policy ∉ m.map Prod.fst := by simpa [keys, hp] using hnew
    simp [keys, mapAssign, hfil m hm, hp]

theorem lookup_RegisterPolicy_ok (h : escalator) (policy : Policy) (limit : Int)
    (errorChanID closeChanID : Nat)
    (hid : identity policy ≠ "") (hnew : identity policy ∉ h.keys)
    (hfit : bufSize policy ≤ limit) :
    (h.RegisterPolicy policy limit errorChanID closeChanID).h.lookup (identity policy) =
      some { uid := identity policy, errorChan := ⟨errorChanID, bufSize policy⟩,
             policy := policy.ref, closeChan := ⟨closeChanID, 0⟩ } := by
  rw [RegisterPolicy_ok h policy limit errorChanID closeChanID hid hnew hfit]
  simp [lookup, mapAssign]

/-- Unregistration of a registered identity. -/
theorem UnregisterPolicy_ok (h : escalator) (policy : Policy) (record : policyRecord)
    (hid : identity policy ≠ "") (hrec : h.lookup (identity policy) = some record) :
    h.UnregisterPolicy policy =
      { h := { h with policies := mapDelete h.policies (identity policy) },
        effects := [.closeChan record.errorChan, .policyClose record.policy,
          .closeChan record.closeChan],
        ret := .ok () } := by
  simp [UnregisterPolicy, uidForPolicy_eq, hid, hrec, policyRecord.closer]

/-- Unregistration of a policy without identity or of an unknown identity. -/
theorem UnregisterPolicy_error (h : escalator) (policy : Policy)
    (hbad : identity policy = "" ∨ identity policy ∉ h.keys) :
    h.UnregisterPolicy policy =
      { h := h, effects := [],
        ret := .error (if identity policy = "" then .noNameOrUniqID
          else .notRegistered (identity policy)) } := by
  by_cases hid : identity policy = ""
  · simp [UnregisterPolicy, uidForPolicy_eq, hid]
  · have hnone := (lookup_eq_none_iff h (identity policy)).2 (hbad.resolve_left hid)
    simp [UnregisterPolicy, uidForPolicy_eq, hid, hnone]

theorem keys_mapDelete (h : escalator) (k : String) :
    keys { h with policies := mapDelete h.policies k } = h.keys.filter (fun x => x != k) := by
  cases hp : h.policies with
  | none => simp [keys, mapDelete, hp]
  | some m =>
    simp only [keys, mapDelete, hp, Option.map_some', List.filter_map]
    rfl

/-- The empty string is never a key of a new escalator, and calls keep it so. -/
theorem NewEscalator_keys (id : Nat) : (NewEscalator id).keys = [] := rfl

theorem RegisterPolicy_keeps_nonempty_keys (h : escalator) (policy : Policy)
    (limit : Int) (errorChanID closeChanID : Nat) (hwf : "" ∉ h.keys) :
    "" ∉ (h.RegisterPolicy policy limit errorChanID closeChanID).h.keys := by
  by_cases hbad : identity policy = "" ∨ identity policy ∈ h.keys ∨ bufSize policy > limit
  · rw [(RegisterPolicy_failed h policy limit errorChanID closeChanID hbad).1, keys_some_getD]
    exact hwf
  · rw [not_or, not_or, not_lt] at hbad
    rw [keys_RegisterPolicy_ok h policy limit errorChanID closeChanID hbad.1 hbad.2.1 hbad.2.2,
      List.mem_cons, not_or]
    exact ⟨fun heq => hbad.1 heq.symm, hwf⟩

theorem UnregisterPolicy_keeps_nonempty_keys (h : escalator) (policy : Policy)
    (hwf : "" ∉ h.keys) : "" ∉ (h.UnregisterPolicy policy).h.keys := by
  by_cases hbad : identity policy = "" ∨ identity policy ∉ h.keys
  · rw [UnregisterPolicy_error h policy hbad]; exact hwf
  · rw [not_or, not_not] at hbad
    obtain ⟨record, hrec⟩ := Option.isSome_iff_exists.1
      ((lookup_isSome_iff h (identity policy)).2 hbad.2)
    rw [UnregisterPolicy_ok h policy record hbad.1 hrec, keys_mapDelete]
    exact fun hmem => hwf (List.mem_filter.1 hmem).1

theorem lookup_mapDelete_self (h : escalator) (k : String) :
    lookup { h with policies := mapDelete h.policies k } k = none := by
  rw [lookup_eq_none_iff, keys_mapDelete]
  simp

/-- C6 as stated fails: on a new escalator a threshold policy with
`ErrorCount = 2 ^ 61` has the new, non-empty identity `p`, yet `RegisterPolicy`
panics, because `make` refuses the buffer size `2 ^ 62`; and a second policy of
the same identity is then registered without failure. -/
theorem RegisterPolicy_fails_on_size :
    identity ((ThresholdEscalationPolicy.fresh 2305843009213693952 1000000000 "p" "" 0).toPolicy
        63900000000000000000 7) = "p" ∧
      "p" ∉ (NewEscalator 0).keys ∧
      ((NewEscalator 0).RegisterPolicy
        ((ThresholdEscalationPolicy.fresh 2305843009213693952 1000000000 "p" "" 0).toPolicy
          63900000000000000000 7) makeLimit64 1 2).ret = .error .makechanSizeOutOfRange ∧
      (((NewEscalator 0).RegisterPolicy
        ((ThresholdEscalationPolicy.fresh 2305843009213693952 1000000000 "p" "" 0).toPolicy
          63900000000000000000 7) makeLimit64 1 2).h.RegisterPolicy
        (ImmediateEscalationPolicy.toPolicy ⟨"p", "", false⟩ 8) makeLimit64 3 4).ret
        = .ok ⟨3, 1⟩ :=
  ⟨rfl, by decide, rfl, rfl⟩

/-- C6 (amended): `RegisterPolicy` panics if and only if the identity of the
policy (its uid, or its name when the uid is empty) is empty, or is already a
key of the registry, or `make` refuses the buffer size of the intake channel. A
failed call leaves the registered identities as they were; a successful call
adds exactly that identity. Hence, unless the first call failed for the buffer
size, a second registration under the identity of a first one panics. -/
theorem RegisterPolicy_fails_iff (h : escalator) (policy : Policy)
    (limit : Int) (errorChanID closeChanID : Nat) :
    ((∃ p, (h.RegisterPolicy policy limit errorChanID closeChanID).ret = .error p) ↔
        identity policy = "" ∨ identity policy ∈ h.keys ∨ bufSize policy > limit) ∧
      ((∃ p, (h.RegisterPolicy policy limit errorChanID closeChanID).ret = .error p) →
        (h.RegisterPolicy policy limit errorChanID closeChanID).h.keys = h.keys) ∧
      ((∃ c, (h.RegisterPolicy policy limit errorChanID closeChanID).ret = .ok c) →
        ∀ k, k ∈ (h.RegisterPolicy policy limit errorChanID closeChanID).h.keys ↔
          k = identity policy ∨ k ∈ h.keys) ∧
      (∀ (second : Policy) (limit2 : Int) (errorChanID2 closeChanID2 : Nat),
        identity second = identity policy →
        (identity policy = "" ∨ identity policy ∈ h.keys ∨
          ∃ c, (h.RegisterPolicy policy limit errorChanID closeChanID).ret = .ok c) →
        ∃ p, ((h.RegisterPolicy policy limit errorChanID closeChanID).h.RegisterPolicy second
          limit2 errorChanID2 closeChanID2).ret = .error p) := by
  by_cases hbad : identity policy = "" ∨ identity policy ∈ h.keys ∨ bufSize policy > limit
  · obtain ⟨hh, _, p, hret⟩ := RegisterPolicy_failed h policy limit errorChanID closeChanID hbad
    have hkeys : (h.RegisterPolicy policy limit errorChanID closeChanID).h.keys = h.keys := by
      rw [hh, keys_some_getD]
    refine ⟨⟨fun _ => hbad, fun _ => ⟨_, hret⟩⟩, fun _ => hkeys, ?_, ?_⟩
    · rintro ⟨c, hc⟩
      rw [hret] at hc
      cases hc
    · intro second limit2 e2 c2 hsame hfirst
      have hbad2 : identity second = "" ∨
          identity second ∈ (h.RegisterPolicy policy limit errorChanID closeChanID).h.keys := by
        rw [hkeys, hsame]
        rcases hfirst with h1 | h1 | ⟨c, hc⟩
        · exact Or.inl h1
        · exact Or.inr h1
        · rw [hret] at hc
          cases hc
      exact ⟨_, (RegisterPolicy_error _ second limit2 e2 c2 hbad2).2.2⟩
  · have hbad' := hbad
    rw [not_or, not_or, not_lt] at hbad'
    have hok := RegisterPolicy_ok h policy limit errorChanID closeChanID hbad'.1 hbad'.2.1
      hbad'.2.2
    have hkeys := keys_RegisterPolicy_ok h policy limit errorChanID closeChanID hbad'.1
      hbad'.2.1 hbad'.2.2
    refine ⟨⟨?_, fun hb => absurd hb hbad⟩, ?_, ?_, ?_⟩
    · rintro ⟨p, hp⟩
      rw [hok] at hp
      cases hp
    · rintro ⟨p, hp⟩
      rw [hok] at hp
      cases hp
    · intro _ k
      rw [hkeys, List.mem_cons]
    · intro second limit2 e2 c2 hsame _
      have hbad2 : identity second = "" ∨
          identity second ∈ (h.RegisterPolicy policy limit errorChanID closeChanID).h.keys := by
        rw [hkeys, hsame]; exact Or.inr (List.mem_cons_self _ _)
      exact ⟨_, (RegisterPolicy_error _ second limit2 e2 c2 hbad2).2.2⟩

/-- C7: on an escalator none of whose keys is empty (as is every escalator made
by `NewEscalator` and changed by calls only), `UnregisterPolicy` panics if and
only if the identity of the policy is not a key of the registry; a failed call
leaves the escalator unchanged and performs no action, so `Close` is not
invoked. After a successful registration, unregistering the policy succeeds and
unregistering it once more panics. -/
theorem UnregisterPolicy_fails_iff (h : escalator) (policy : Policy) (hwf : "" ∉ h.keys) :
    ((∃ p, (h.UnregisterPolicy policy).ret = .error p) ↔ identity policy ∉ h.keys) ∧
      ((∃ p, (h.UnregisterPolicy policy).ret = .error p) →
        (h.UnregisterPolicy policy).h = h ∧ (h.UnregisterPolicy policy).effects = []) ∧
      (∀ (limit : Int) (errorChanID closeChanID : Nat) (c : Chan),
        (h.RegisterPolicy policy limit errorChanID closeChanID).ret = .ok c →
        ((h.RegisterPolicy policy limit errorChanID closeChanID).h.UnregisterPolicy policy).ret
            = .ok () ∧
          (((h.RegisterPolicy policy limit errorChanID closeChanID).h.UnregisterPolicy policy).h
            |>.UnregisterPolicy policy).ret = .error (.notRegistered (identity policy))) := by
  have hiff : identity policy ∉ h.keys ↔ (identity policy = "" ∨ identity policy ∉ h.keys) :=
    ⟨Or.inr, fun hb => hb.elim (fun he => he ▸ hwf) id⟩
  refine ⟨?_, ?_, ?_⟩
  · rw [hiff]
    constructor
    · rintro ⟨p, hp⟩
      by_contra hgood
      rw [not_or, not_not] at hgood
      obtain ⟨record, hrec⟩ := Option.isSome_iff_exists.1
        ((lookup_isSome_iff h (identity policy)).2 hgood.2)
      rw [UnregisterPolicy_ok h policy record hgood.1 hrec] at hp
      cases hp
    · intro hbad
      rw [UnregisterPolicy_error h policy hbad]
      exact ⟨_, rfl⟩
  · rintro ⟨p, hp⟩
    by_cases hbad : identity policy = "" ∨ identity policy ∉ h.keys
    · rw [UnregisterPolicy_error h policy hbad]
      exact ⟨rfl, rfl⟩
    · rw [not_or, not_not] at hbad
      obtain ⟨record, hrec⟩ := Option.isSome_iff_exists.1
        ((lookup_isSome_iff h (identity policy)).2 hbad.2)
      rw [UnregisterPolicy_ok h policy record hbad.1 hrec] at hp
      cases hp
  · intro limit errorChanID closeChanID c hc
    obtain ⟨hid, hnew, hfit⟩ := RegisterPolicy_of_ok h policy limit errorChanID closeChanID c hc
    have hlook := lookup_RegisterPolicy_ok h policy limit errorChanID closeChanID hid hnew hfit
    rw [UnregisterPolicy_ok _ policy _ hid hlook]
    refine ⟨rfl, ?_⟩
    have hgone : identity policy = "" ∨ identity policy ∉
        (keys { (h.RegisterPolicy policy limit errorChanID closeChanID).h with
          policies := mapDelete
            (h.RegisterPolicy policy limit errorChanID closeChanID).h.policies
            (identity policy) }) :=
      Or.inr ((lookup_eq_none_iff _ _).1 (lookup_mapDelete_self _ _))
    rw [UnregisterPolicy_error _ policy hgone, if_neg hid]

/-- Witness of C6: a first registration on a new escalator succeeds and adds its
identity. -/
theorem RegisterPolicy_fails_iff_witness :
    (∃ c, ((NewEscalator 0).RegisterPolicy
        (ImmediateEscalationPolicy.toPolicy ⟨"db", "db-1", false⟩ 7) makeLimit64 1 2).ret
        = .ok c) ∧
      ∀ k, k ∈ ((NewEscalator 0).RegisterPolicy
          (ImmediateEscalationPolicy.toPolicy ⟨"db", "db-1", false⟩ 7) makeLimit64 1 2).h.keys ↔
        k = identity (ImmediateEscalationPolicy.toPolicy ⟨"db", "db-1", false⟩ 7) ∨
          k ∈ (NewEscalator 0).keys :=
  ⟨⟨_, rfl⟩, (RegisterPolicy_fails_iff (NewEscalator 0)
    (ImmediateEscalationPolicy.toPolicy ⟨"db", "db-1", false⟩ 7) makeLimit64 1 2).2.2.1
      ⟨_, rfl⟩⟩

/-- Witness of C7: on a new escalator, which has no key, unregistering fails. -/
theorem UnregisterPolicy_fails_iff_witness :
    "" ∉ (NewEscalator 0).keys ∧
      ((∃ p, ((NewEscalator 0).UnregisterPolicy
          (ImmediateEscalationPolicy.toPolicy ⟨"db", "db-1", false⟩ 7)).ret = .error p) ↔
        identity (ImmediateEscalationPolicy.toPolicy ⟨"db", "db-1", false⟩ 7) ∉
          (NewEscalator 0).keys) :=
  ⟨by decide, (UnregisterPolicy_fails_iff (NewEscalator 0)
    (ImmediateEscalationPolicy.toPolicy ⟨"db", "db-1", false⟩ 7) (by decide)).1⟩

end escalator

/-! ## Escalator: evaluation goroutine -/

/-- C8: for every policy and every dequeued error the evaluation goroutine calls
`Receive` exactly once, with that error; it performs exactly one channel send,
on the escalation channel, when `Receive` returns true, and no send when
`Receive` returns false (or panics). -/
theorem evalTask_sends (h : escalator) (policy : Policy) (err : Option GoError) :
    receiveCalls (evalTask h policy err) = [err] ∧
      sends (evalTask h policy err) =
        (match policy.Receive err with
          | .ok true =>
            [(h.EscalationChannel,
              escalationError (if policy.GetName = "" then "<unnamed>" else policy.GetName)
                policy.GetUniqID err)]
          | .ok false => []
          | .error _ => []) := by
  unfold evalTask
  rcases hr : policy.Receive err with p | b
  · exact ⟨rfl, rfl⟩
  · cases b <;> exact ⟨rfl, rfl⟩

/-- C9: the message sent for an escalated error `err` wraps `err`, so that
unwrapping it yields `err`, and its text is
`async error policy '<name>' (<uid>) escalated: <err>` when the uid is not
empty and `async error policy '<name>' escalated: <err>` otherwise, `<name>`
being the name of the policy or `<unnamed>` when the name is empty. -/
theorem evalTask_message (h : escalator) (policy : Policy) (err : GoError)
    (hesc : policy.Receive (some err) = .ok true) :
    ∃ msg, sends (evalTask h policy (some err)) = [(h.EscalationChannel, msg)] ∧
      msg.Unwrap = some err ∧
      msg.Error =
        if policy.GetUniqID ≠ "" then
          "async error policy '" ++ (if policy.GetName = "" then "<unnamed>" else policy.GetName)
            ++ "' (" ++ policy.GetUniqID ++ ") escalated: " ++ err.Error
        else
          "async error policy '" ++ (if policy.GetName = "" then "<unnamed>" else policy.GetName)
            ++ "' escalated: " ++ err.Error := by
  refine ⟨_, by rw [evalTask, hesc]; rfl, ?_, ?_⟩
  · unfold escalationError errorfW
    split_ifs <;> rfl
  · unfold escalationError errorfW displayName
    by_cases hu : policy.GetUniqID = "" <;> simp [hu, GoError.Error]

/-- Witness of C9: the immediate policy `db` with uid `db-1` escalates `boom`. -/
theorem evalTask_message_witness :
    ∃ msg, sends (evalTask (NewEscalator 0)
        (ImmediateEscalationPolicy.toPolicy ⟨"db", "db-1", false⟩ 7) (some (.base "boom")))
        = [((NewEscalator 0).EscalationChannel, msg)] ∧
      msg.Unwrap = some (.base "boom") ∧
      msg.Error = "async error policy 'db' (db-1) escalated: boom" := by
  obtain ⟨msg, h1, h2, h3⟩ := evalTask_message (NewEscalator 0)
    (ImmediateEscalationPolicy.toPolicy ⟨"db", "db-1", false⟩ 7) (.base "boom") rfl
  exact ⟨msg, h1, h2, h3.trans (by decide)⟩

/-! ## Escalator: teardown -/

/-- Filtering out a member `x` of a list lowers a count by at least the share of `x`. -/
theorem countP_filter_add_le {α : Type} (p q : α → Bool) (l : List α) (x : α) (hx : x ∈ l)
    (hq : q x = false) :
    (l.filter q).countP p + (if p x = true then 1 else 0) ≤ l.countP p := by
  induction l with
  | nil => cases hx
  | cons a l ih =>
    have hsub : (l.filter q).countP p ≤ l.countP p := (List.filter_sublist l).countP_le p
    rcases List.mem_cons.1 hx with rfl | hx'
    · rw [List.filter_cons_of_neg (by simp [hq]), List.countP_cons]
      omega
    · have := ih hx'
      by_cases hqa : q a = true
      · rw [List.filter_cons_of_pos hqa, List.countP_cons, List.countP_cons]
        omega
      · rw [List.filter_cons_of_neg hqa, List.countP_cons]
        omega

namespace escalator

theorem lookup_mem (h : escalator) (k : String) (record : policyRecord)
    (hrec : h.lookup k = some record) :
    ∃ m, h.policies = some m ∧ (k, record) ∈ m := by
  unfold lookup at hrec
  cases hp : h.policies with
  | none => rw [hp] at hrec; cases hrec
  | some m =>
    rw [hp] at hrec
    simp only [Option.map_eq_some'] at hrec
    obtain ⟨kv, hfind, hsnd⟩ := hrec
    have hk : kv.1 = k := by simpa using List.find?_some hfind
    refine ⟨m, rfl, ?_⟩
    have hmem := List.mem_of_find?_eq_some hfind
    rw [← hk, ← hsnd]
    exact hmem

/-- A call of `RegisterPolicy` invokes no `Close` and adds at most one registry
entry for a policy object, together with a worker for it. -/
theorem RegisterPolicy_counts (h : escalator) (policy : Policy) (limit : Int)
    (errorChanID closeChanID : Nat) (ref : Nat) :
    closeCount ref (h.RegisterPolicy policy limit errorChanID closeChanID).effects = 0 ∧
      (h.RegisterPolicy policy limit errorChanID closeChanID).h.recordCount ref ≤
        h.recordCount ref +
          workerCount ref (h.RegisterPolicy policy limit errorChanID closeChanID).effects := by
  by_cases hbad : identity policy = "" ∨ identity policy ∈ h.keys ∨ bufSize policy > limit
  · obtain ⟨hh, heff, _⟩ := RegisterPolicy_failed h policy limit errorChanID closeChanID hbad
    rw [hh, heff]
    refine ⟨rfl, ?_⟩
    cases hp : h.policies <;> simp [recordCount, hp]
  · rw [not_or, not_or, not_lt] at hbad
    rw [RegisterPolicy_ok h policy limit errorChanID closeChanID hbad.1 hbad.2.1 hbad.2.2]
    refine ⟨by simp [closeCount], ?_⟩
    have hsub : ∀ m : List (String × policyRecord),
        (m.filter (fun kv => kv.1 != identity policy)).countP (fun kv => kv.2.policy == ref)
          ≤ m.countP (fun kv => kv.2.policy == ref) :=
      fun m => (List.filter_sublist m).countP_le _
    cases hp : h.policies with
    | none =>
      by_cases href : policy.ref = ref <;>
        simp [recordCount, workerCount, mapAssign, hp, href, List.countP_cons]
    | some m =>
      have := hsub m
      by_cases href : policy.ref = ref <;>
        simp [recordCount, workerCount, mapAssign, hp, href, List.countP_cons] <;> omega

/-- A call of `UnregisterPolicy` starts no worker, and each `Close` it invokes
removes a registry entry of the closed policy object. -/
theorem UnregisterPolicy_counts (h : escalator) (policy : Policy) (ref : Nat) :
    workerCount ref (h.UnregisterPolicy policy).effects = 0 ∧
      closeCount ref (h.UnregisterPolicy policy).effects +
          (h.UnregisterPolicy policy).h.recordCount ref ≤ h.recordCount ref := by
  by_cases hbad : identity policy = "" ∨ identity policy ∉ h.keys
  · rw [UnregisterPolicy_error h policy hbad]
    exact ⟨rfl, by simp [closeCount]⟩
  · rw [not_or, not_not] at hbad
    obtain ⟨record, hrec⟩ := Option.isSome_iff_exists.1
      ((lookup_isSome_iff h (identity policy)).2 hbad.2)
    rw [UnregisterPolicy_ok h policy record hbad.1 hrec]
    refine ⟨by simp [workerCount], ?_⟩
    obtain ⟨m, hp, hmem⟩ := lookup_mem h (identity policy) record hrec
    have hle := countP_filter_add_le (fun kv : String × policyRecord => kv.2.policy == ref)
      (fun kv => kv.1 != identity policy) m (identity policy, record) hmem (by simp)
    by_cases href : record.policy = ref <;>
      simp [closeCount, recordCount, mapDelete, hp, href, List.countP_cons] at hle ⊢ <;> omega

/-- Along every sequence of calls, the calls of `Close` on a policy object plus
the registry entries left for it are covered by the workers started for it plus
the entries at the start. -/
theorem exec_counts (limit : Int) (ops : List Op) (ref : Nat) :
    ∀ h : escalator,
      closeCount ref (h.exec limit ops).2 + (h.exec limit ops).1.recordCount ref ≤
        workerCount ref (h.exec limit ops).2 + h.recordCount ref := by
  induction ops with
  | nil => intro h; simp [exec, closeCount, workerCount]
  | cons op rest ih =>
    intro h
    cases op with
    | register policy errorChanID closeChanID =>
      have h1 := RegisterPolicy_counts h policy limit errorChanID closeChanID ref
      have h2 := ih (h.RegisterPolicy policy limit errorChanID closeChanID).h
      simp only [exec, closeCount, workerCount, List.countP_append] at h1 h2 ⊢
      omega
    | unregister policy =>
      have h1 := UnregisterPolicy_counts h policy ref
      have h2 := ih (h.UnregisterPolicy policy).h
      simp only [exec, closeCount, workerCount, List.countP_append] at h1 h2 ⊢
      omega

/-- C10: every successful `UnregisterPolicy` finds the record of the identity
and performs exactly `close(errorChan)`, then `Close` of the registered policy
(once), then `close(closeChan)`, and the identity is no longer registered
afterwards; for a policy just registered these are its intake channel, itself
and its teardown channel. `RegisterPolicy` and a failed `UnregisterPolicy` never
invoke `Close`, and along every sequence of calls on a new escalator `Close` is
invoked on a policy object at most as often as that object was registered. -/
theorem UnregisterPolicy_teardown (h : escalator) (policy : Policy) :
    ((h.UnregisterPolicy policy).ret = .ok () →
        ∃ record, h.lookup (identity policy) = some record ∧
          (h.UnregisterPolicy policy).effects =
            [.closeChan record.errorChan, .policyClose record.policy,
              .closeChan record.closeChan] ∧
          closeCount record.policy (h.UnregisterPolicy policy).effects = 1 ∧
          (h.UnregisterPolicy policy).h.lookup (identity policy) = none) ∧
      (∀ (limit : Int) (errorChanID closeChanID : Nat) (c : Chan),
        (h.RegisterPolicy policy limit errorChanID closeChanID).ret = .ok c →
        ((h.RegisterPolicy policy limit errorChanID closeChanID).h.UnregisterPolicy
            policy).effects =
          [.closeChan c, .policyClose policy.ref, .closeChan ⟨closeChanID, 0⟩]) ∧
      (∀ (limit : Int) (errorChanID closeChanID ref : Nat),
        closeCount ref (h.RegisterPolicy policy limit errorChanID closeChanID).effects = 0) ∧
      ((h.UnregisterPolicy policy).ret ≠ .ok () → (h.UnregisterPolicy policy).effects = []) ∧
      (∀ (id : Nat) (limit : Int) (ops : List Op) (ref : Nat),
        closeCount ref ((NewEscalator id).exec limit ops).2 ≤
          workerCount ref ((NewEscalator id).exec limit ops).2) := by
  refine ⟨?_, ?_, ?_, ?_, ?_⟩
  · intro hok
    by_cases hbad : identity policy = "" ∨ identity policy ∉ h.keys
    · rw [UnregisterPolicy_error h policy hbad] at hok
      cases hok
    · rw [not_or, not_not] at hbad
      obtain ⟨record, hrec⟩ := Option.isSome_iff_exists.1
        ((lookup_isSome_iff h (identity policy)).2 hbad.2)
      rw [UnregisterPolicy_ok h policy record hbad.1 hrec]
      exact ⟨record, hrec, rfl, by simp [closeCount], lookup_mapDelete_self h _⟩
  · intro limit errorChanID closeChanID c hc
    obtain ⟨hid, hnew, hfit⟩ := RegisterPolicy_of_ok h policy limit errorChanID closeChanID c hc
    have hlook := lookup_RegisterPolicy_ok h policy limit errorChanID closeChanID hid hnew hfit
    rw [UnregisterPolicy_ok _ policy _ hid hlook]
    rw [RegisterPolicy_ok h policy limit errorChanID closeChanID hid hnew hfit] at hc
    injection hc with hc
    rw [← hc]
  · intro limit errorChanID closeChanID ref
    exact (RegisterPolicy_counts h policy limit errorChanID closeChanID ref).1
  · intro hne
    by_cases hbad : identity policy = "" ∨ identity policy ∉ h.keys
    · rw [UnregisterPolicy_error h policy hbad]
    · rw [not_or, not_not] at hbad
      obtain ⟨record, hrec⟩ := Option.isSome_iff_exists.1
        ((lookup_isSome_iff h (identity policy)).2 hbad.2)
      rw [UnregisterPolicy_ok h policy record hbad.1 hrec] at hne
      exact absurd rfl hne
  · intro id limit ops ref
    have := exec_counts limit ops ref (NewEscalator id)
    have h0 : (NewEscalator id).recordCount ref = 0 := rfl
    omega

/-- Witness of C10: registering the immediate policy `db` and unregistering it
closes its intake channel, invokes its `Close`, closes its teardown channel. -/
theorem UnregisterPolicy_teardown_witness :
    (((NewEscalator 0).RegisterPolicy
        (ImmediateEscalationPolicy.toPolicy ⟨"db", "db-1", false⟩ 7) makeLimit64 1 2).h
      |>.UnregisterPolicy (ImmediateEscalationPolicy.toPolicy ⟨"db", "db-1", false⟩ 7)).effects =
      [.closeChan ⟨1, 1⟩, .policyClose 7, .closeChan ⟨2, 0⟩] :=
  (UnregisterPolicy_teardown (NewEscalator 0)
    (ImmediateEscalationPolicy.toPolicy ⟨"db", "db-1", false⟩ 7)).2.1 makeLimit64 1 2 ⟨1, 1⟩ rfl

end escalator

/-! ## Escalator: intake capacity and round trip -/

theorem wrapInt_eq_self {x : Int} (hlo : -(2 ^ 63) ≤ x) (hhi : x < 2 ^ 63) : wrapInt x = x := by
  unfold wrapInt
  omega

namespace escalator

/-- C11 as stated fails. For `ErrorCount = 2 ^ 62` the product `ErrorCount * 2`
overflows the 64-bit `int` to a negative value and the intake channel gets the
default capacity 32, not `2 * ErrorCount`; for `ErrorCount = -(2 ^ 63) + 1` it
overflows to 2 and the capacity is 2, not 32; and for `ErrorCount = 2 ^ 61` no
channel is made at all, because `make` refuses the size `2 ^ 62`. -/
theorem RegisterPolicy_capacity_overflow :
    ((NewEscalator 0).RegisterPolicy
        ((ThresholdEscalationPolicy.fresh 4611686018427387904 1000000000 "p" "" 0).toPolicy
          63900000000000000000 7) makeLimit64 1 2).ret = .ok ⟨1, 32⟩ ∧
      (1 : Int) ≤ 4611686018427387904 ∧ (32 : Int) ≠ 2 * 4611686018427387904 ∧
      ((NewEscalator 0).RegisterPolicy
        ((ThresholdEscalationPolicy.fresh (-9223372036854775807) 1000000000 "p" "" 0).toPolicy
          63900000000000000000 7) makeLimit64 1 2).ret = .ok ⟨1, 2⟩ ∧
      (-9223372036854775807 : Int) ≤ 0 ∧
      ((NewEscalator 0).RegisterPolicy
        ((ThresholdEscalationPolicy.fresh 2305843009213693952 1000000000 "p" "" 0).toPolicy
          63900000000000000000 7) makeLimit64 1 2).ret = .error .makechanSizeOutOfRange ∧
      (1 : Int) ≤ 2305843009213693952 :=
  ⟨rfl, by decide, by decide, rfl, by decide, rfl, by decide⟩

/-- C11 (amended): the intake channel of every registration that returns has
capacity `GetDesiredBufferSize()` when that is positive and 32 otherwise. Hence
a registered `ImmediateEscalationPolicy` has capacity 1, and a registered
`ThresholdEscalationPolicy` has `2 * ErrorCount` when `1 ≤ ErrorCount < 2 ^ 62`
and 32 when `-(2 ^ 62) ≤ ErrorCount ≤ 0`. A registration returns when the
identity is new and not empty and `make` accepts that capacity. -/
theorem RegisterPolicy_capacity (h : escalator) (limit : Int) (errorChanID closeChanID : Nat) :
    (∀ (policy : Policy) (c : Chan),
        (h.RegisterPolicy policy limit errorChanID closeChanID).ret = .ok c →
        c = ⟨errorChanID,
          if 0 < policy.GetDesiredBufferSize then policy.GetDesiredBufferSize else 32⟩ ∧
        Effect.makeChan c ∈ (h.RegisterPolicy policy limit errorChanID closeChanID).effects) ∧
      (∀ (i : ImmediateEscalationPolicy) (ref : Nat) (c : Chan),
        (h.RegisterPolicy (i.toPolicy ref) limit errorChanID closeChanID).ret = .ok c →
        c = ⟨errorChanID, 1⟩) ∧
      (∀ (e : ThresholdEscalationPolicy) (now : Time) (ref : Nat) (c : Chan),
        (h.RegisterPolicy (e.toPolicy now ref) limit errorChanID closeChanID).ret = .ok c →
        (1 ≤ e.ErrorCount → e.ErrorCount < 2 ^ 62 → c = ⟨errorChanID, 2 * e.ErrorCount⟩) ∧
        (-(2 ^ 62) ≤ e.ErrorCount → e.ErrorCount ≤ 0 → c = ⟨errorChanID, 32⟩)) ∧
      (∀ policy : Policy, identity policy ≠ "" → identity policy ∉ h.keys →
        (if 0 < policy.GetDesiredBufferSize then policy.GetDesiredBufferSize else 32) ≤ limit →
        ∃ c, (h.RegisterPolicy policy limit errorChanID closeChanID).ret = .ok c) := by
  have hsize : ∀ policy : Policy, bufSize policy =
      if 0 < policy.GetDesiredBufferSize then policy.GetDesiredBufferSize else 32 := by
    intro policy
    unfold bufSize defaultErrChanBufferSize
    by_cases hpos : 0 < policy.GetDesiredBufferSize
    · rw [if_pos hpos, if_neg (not_le.2 hpos)]
    · rw [if_neg hpos, if_pos (not_lt.1 hpos)]
  have hgen : ∀ (policy : Policy) (c : Chan),
      (h.RegisterPolicy policy limit errorChanID closeChanID).ret = .ok c →
      c = ⟨errorChanID,
        if 0 < policy.GetDesiredBufferSize then policy.GetDesiredBufferSize else 32⟩ ∧
      Effect.makeChan c ∈ (h.RegisterPolicy policy limit errorChanID closeChanID).effects := by
    intro policy c hc
    obtain ⟨hid, hnew, hfit⟩ := RegisterPolicy_of_ok h policy limit errorChanID closeChanID c hc
    rw [RegisterPolicy_ok h policy limit errorChanID closeChanID hid hnew hfit] at hc ⊢
    injection hc with hc
    rw [← hc, hsize]
    exact ⟨rfl, List.mem_cons_self _ _⟩
  refine ⟨hgen, ?_, ?_, ?_⟩
  · intro i ref c hc
    rw [(hgen _ c hc).1]
    rfl
  · intro e now ref c hc
    have hdes : (e.toPolicy now ref).GetDesiredBufferSize = wrapInt (e.ErrorCount * 2) := rfl
    constructor
    · intro h1 h2
      rw [(hgen _ c hc).1, hdes, wrapInt_eq_self (by omega) (by omega)]
      have hpos : 0 < e.ErrorCount * 2 := by omega
      rw [if_pos hpos, mul_comm]
    · intro h1 h2
      rw [(hgen _ c hc).1, hdes, wrapInt_eq_self (by omega) (by omega)]
      have hpos : ¬ 0 < e.ErrorCount * 2 := by omega
      rw [if_neg hpos]
  · intro policy hid hnew hfit
    rw [← hsize] at hfit
    exact ⟨_, by rw [RegisterPolicy_ok h policy limit errorChanID closeChanID hid hnew hfit]⟩

/-- Witness of C11: on a new escalator a threshold policy with `ErrorCount = 3`
gets an intake channel of capacity 6. -/
theorem RegisterPolicy_capacity_witness :
    ((NewEscalator 0).RegisterPolicy
        ((ThresholdEscalationPolicy.fresh 3 1000000000 "p" "" 0).toPolicy
          63900000000000000000 7) makeLimit64 1 2).ret = .ok ⟨1, 6⟩ ∧
      (⟨1, 6⟩ : Chan) = ⟨1, 2 * 3⟩ :=
  ⟨rfl, ((RegisterPolicy_capacity (NewEscalator 0) makeLimit64 1 2).2.2.1
    (ThresholdEscalationPolicy.fresh 3 1000000000 "p" "" 0) 63900000000000000000 7 ⟨1, 6⟩
    rfl).1 (by decide) (by decide)⟩

/-- C18 as stated fails: on a new escalator a threshold policy with
`ErrorCount = 2 ^ 61` has a non-empty identity that is not registered, yet
`RegisterPolicy` panics, because `make` refuses the buffer size `2 ^ 62`, and
the following `UnregisterPolicy` panics too. -/
theorem RegisterPolicy_UnregisterPolicy_fails_on_size :
    identity ((ThresholdEscalationPolicy.fresh 2305843009213693952 1000000000 "p" "" 0).toPolicy
        63900000000000000000 7) = "p" ∧
      "p" ∉ (NewEscalator 0).keys ∧
      ((NewEscalator 0).RegisterPolicy
        ((ThresholdEscalationPolicy.fresh 2305843009213693952 1000000000 "p" "" 0).toPolicy
          63900000000000000000 7) makeLimit64 1 2).ret = .error .makechanSizeOutOfRange ∧
      (((NewEscalator 0).RegisterPolicy
        ((ThresholdEscalationPolicy.fresh 2305843009213693952 1000000000 "p" "" 0).toPolicy
          63900000000000000000 7) makeLimit64 1 2).h.UnregisterPolicy
        ((ThresholdEscalationPolicy.fresh 2305843009213693952 1000000000 "p" "" 0).toPolicy
          63900000000000000000 7)).ret = .error (.notRegistered "p") :=
  ⟨rfl, by decide, rfl, rfl⟩

/-- C18 (amended): for every escalator and every policy whose identity is not
empty and not registered and whose intake buffer size `make` accepts,
`RegisterPolicy` followed by `UnregisterPolicy` of the policy both succeed and
leave the registered identities as they were before, and the policy can then be
registered again. -/
theorem RegisterPolicy_UnregisterPolicy_roundtrip (h : escalator) (policy : Policy)
    (limit : Int) (errorChanID closeChanID : Nat) (hid : identity policy ≠ "")
    (hnew : identity policy ∉ h.keys) (hfit : bufSize policy ≤ limit) :
    (∃ c, (h.RegisterPolicy policy limit errorChanID closeChanID).ret = .ok c) ∧
      ((h.RegisterPolicy policy limit errorChanID closeChanID).h.UnregisterPolicy policy).ret
        = .ok () ∧
      ((h.RegisterPolicy policy limit errorChanID closeChanID).h.UnregisterPolicy policy).h.keys
        = h.keys ∧
      ∀ errorChanID2 closeChanID2 : Nat,
        ∃ c, (((h.RegisterPolicy policy limit errorChanID closeChanID).h.UnregisterPolicy
          policy).h.RegisterPolicy policy limit errorChanID2 closeChanID2).ret = .ok c := by
  have hok := RegisterPolicy_ok h policy limit errorChanID closeChanID hid hnew hfit
  have hlook := lookup_RegisterPolicy_ok h policy limit errorChanID closeChanID hid hnew hfit
  have hkeys := keys_RegisterPolicy_ok h policy limit errorChanID closeChanID hid hnew hfit
  have hun := UnregisterPolicy_ok _ policy _ hid hlook
  have hback : ((h.RegisterPolicy policy limit errorChanID closeChanID).h.UnregisterPolicy
      policy).h.keys = h.keys := by
    rw [hun, keys_mapDelete, hkeys, List.filter_cons_of_neg (by simp), List.filter_eq_self]
    intro k hk
    have : k ≠ identity policy := fun heq => hnew (heq ▸ hk)
    simpa using this
  refine ⟨⟨_, by rw [hok]⟩, by rw [hun], hback, ?_⟩
  intro errorChanID2 closeChanID2
  have hnew2 : identity policy ∉ ((h.RegisterPolicy policy limit errorChanID closeChanID).h
      |>.UnregisterPolicy policy).h.keys := by rw [hback]; exact hnew
  exact ⟨_, by rw [RegisterPolicy_ok _ policy limit errorChanID2 closeChanID2 hid hnew2 hfit]⟩

/-- Witness of C18: the round trip of the immediate policy `db` on a new
escalator. -/
theorem RegisterPolicy_UnregisterPolicy_roundtrip_witness :
    (((NewEscalator 0).RegisterPolicy
        (ImmediateEscalationPolicy.toPolicy ⟨"db", "db-1", false⟩ 7) makeLimit64 1 2).h
      |>.UnregisterPolicy (ImmediateEscalationPolicy.toPolicy ⟨"db", "db-1", false⟩ 7)).h.keys
      = (NewEscalator 0).keys :=
  (RegisterPolicy_UnregisterPolicy_roundtrip (NewEscalator 0)
    (ImmediateEscalationPolicy.toPolicy ⟨"db", "db-1", false⟩ 7) makeLimit64 1 2
    (by decide) (by decide) (by decide)).2.2.1

end escalator

/-! ## Threshold policy: frame, logging and degenerate thresholds -/

namespace ThresholdEscalationPolicy

/-- The log line and the skip counter of a call of `Receive` with a non-nil
error. -/
theorem Receive_logged (e : ThresholdEscalationPolicy) (now : Time) (err : GoError) :
    (∃ escalate, (e.Receive now (some err)).2 = .ok
      { escalate := escalate,
        logged := if e.LogEvery > 0 ∧ wrapInt (e.skippedSinceLastLog + 1) ≥ e.LogEvery
          then some err.Error else none }) ∧
      (e.after now err).skippedSinceLastLog =
        if e.LogEvery > 0 then
          (if wrapInt (e.skippedSinceLastLog + 1) ≥ e.LogEvery then 0
            else wrapInt (e.skippedSinceLastLog + 1))
        else e.skippedSinceLastLog := by
  constructor
  · simp only [Receive, Option.isNone_some, Bool.and_false, Bool.false_eq_true, if_false,
      Option.map_some', Bool.and_eq_true, decide_eq_true_eq]
    exact ⟨_, rfl⟩
  · simp only [after, Receive, Option.isNone_some, Bool.and_false, Bool.false_eq_true, if_false]
    by_cases h : Time.Sub now e.lastCompression > e.TimeWindow <;> simp [h]

/-- C14: when `now.Sub(lastCompression) <= TimeWindow`, the call leaves
`lastCompression` unchanged and the stored window afterwards is the prior
window with `(now, err)` appended; no record is removed, whatever its age. -/
theorem Receive_no_compaction (e : ThresholdEscalationPolicy) (now : Time) (err : GoError)
    (hgap : Time.Sub now e.lastCompression ≤ e.TimeWindow) :
    (e.Receive now (some err)).1.lastCompression = e.lastCompression ∧
      (e.Receive now (some err)).1.errors =
        e.errors ++ [(⟨now, some err⟩ : errorTimeRecord)] ∧
      ∃ r, (e.Receive now (some err)).2 = .ok r := by
  have herr := after_errors e now err
  have hlast := after_lastCompression e now err
  have hno : ¬ Time.Sub now e.lastCompression > e.TimeWindow := not_lt.2 hgap
  rw [if_neg hno] at herr hlast
  obtain ⟨logged, h⟩ := Receive_some e now err
  exact ⟨hlast, herr, _, h⟩

/-- Witness of C14: a record of second 1 stays stored at second 3 although the
window is one second, because the last compaction was at second 2.5. -/
theorem Receive_no_compaction_witness :
    Time.Sub 3000000000 2500000000 ≤ 1000000000 ∧
      (Receive
        { ErrorCount := 2, TimeWindow := 1000000000, Name := "p", UniqID := "", LogEvery := 0,
          lastCompression := 2500000000, skippedSinceLastLog := 0,
          errors := [⟨1000000000, some (.base "a")⟩] }
        3000000000 (some (.base "b"))).1.errors =
        [⟨1000000000, some (.base "a")⟩, ⟨3000000000, some (.base "b")⟩] :=
  ⟨by decide,
    (Receive_no_compaction
      { ErrorCount := 2, TimeWindow := 1000000000, Name := "p", UniqID := "", LogEvery := 0,
        lastCompression := 2500000000, skippedSinceLastLog := 0,
        errors := [⟨1000000000, some (.base "a")⟩] }
      3000000000 (.base "b") (by decide)).2.1⟩

/-- C16: two policies that agree on `ErrorCount`, `TimeWindow`, the stored
window and `lastCompression`, whatever their `LogEvery` and
`skippedSinceLastLog`, return the same boolean from `Receive` with the same
(non-nil) error at the same clock reading and are left with the same stored
window and the same `lastCompression`. -/
theorem Receive_log_independent (e1 e2 : ThresholdEscalationPolicy) (now : Time) (err : GoError)
    (hcount : e1.ErrorCount = e2.ErrorCount) (hwin : e1.TimeWindow = e2.TimeWindow)
    (herrors : e1.errors = e2.errors) (hlast : e1.lastCompression = e2.lastCompression) :
    (∃ r1 r2, (e1.Receive now (some err)).2 = .ok r1 ∧ (e2.Receive now (some err)).2 = .ok r2 ∧
        r1.escalate = r2.escalate) ∧
      (e1.Receive now (some err)).1.errors = (e2.Receive now (some err)).1.errors ∧
      (e1.Receive now (some err)).1.lastCompression =
        (e2.Receive now (some err)).1.lastCompression := by
  obtain ⟨l1, h1⟩ := Receive_some e1 now err
  obtain ⟨l2, h2⟩ := Receive_some e2 now err
  have ha1 := after_errors e1 now err
  have ha2 := after_errors e2 now err
  have hb1 := after_lastCompression e1 now err
  have hb2 := after_lastCompression e2 now err
  simp only [after] at ha1 ha2 hb1 hb2
  refine ⟨⟨_, _, h1, h2, ?_⟩, ?_, ?_⟩
  · simp only [hcount, hwin, herrors]
  · rw [ha1, ha2, hwin, herrors, hlast]
  · rw [hb1, hb2, hwin, hlast]

/-- Witness of C16: a policy that logs every error and one that never logs. -/
theorem Receive_log_independent_witness :
    (Receive (fresh 2 1000000000 "p" "" 1) 63900000000000000000 (some (.base "a"))).1.errors =
      (Receive (fresh 2 1000000000 "q" "" 0) 63900000000000000000 (some (.base "a"))).1.errors :=
  (Receive_log_independent (fresh 2 1000000000 "p" "" 1) (fresh 2 1000000000 "q" "" 0)
    63900000000000000000 (.base "a") rfl rfl rfl rfl).2.1

/-- Readings of a list of calls at non-decreasing instants are ordered by
position. -/
theorem timeAt_le_timeAt (calls : List (Time × GoError))
    (hsorted : (calls.map Prod.fst).Pairwise (· ≤ ·)) {i k : Nat} (hik : i ≤ k)
    (hk : k < calls.length) : timeAt calls i ≤ timeAt calls k := by
  have hi' : i < (calls.map Prod.fst).length := by rw [List.length_map]; omega
  have hk' : k < (calls.map Prod.fst).length := by rw [List.length_map]; exact hk
  have hsorted' : (calls.map Prod.fst).Sorted (· ≤ ·) := hsorted
  have := hsorted'.rel_get_of_le (a := ⟨i, hi'⟩) (b := ⟨k, hk'⟩)
    (by simp only [Fin.mk_le_mk]; exact hik)
  simpa [timeAt, List.getD_eq_getElem?_getD, List.getElem?_eq_getElem hi',
    List.getElem?_eq_getElem hk'] using this

/-- C20: degenerate thresholds. With `ErrorCount ≤ 0` every call of `Receive`
returns true; with `ErrorCount = 1` and `TimeWindow ≥ 0` every call returns
true; with `TimeWindow < 0` and `ErrorCount ≥ 1` no call of a run from a fresh
policy at non-decreasing readings returns true; the zero-value policy
escalates every error. -/
theorem Receive_degenerate :
    (∀ (e : ThresholdEscalationPolicy) (now : Time) (err : GoError), e.ErrorCount ≤ 0 →
        ∃ r, (e.Receive now (some err)).2 = .ok r ∧ r.escalate = true) ∧
      (∀ (e : ThresholdEscalationPolicy) (now : Time) (err : GoError), e.ErrorCount = 1 →
        0 ≤ e.TimeWindow → ∃ r, (e.Receive now (some err)).2 = .ok r ∧ r.escalate = true) ∧
      (∀ (n : Int) (W : Duration) (name uniqID : String) (logEvery : Int)
        (calls : List (Time × GoError)), 1 ≤ n → W < 0 →
        (calls.map Prod.fst).Pairwise (· ≤ ·) → ∀ k : Nat, k < calls.length →
        ∃ r, ((fresh n W name uniqID logEvery).run (withErrors calls))[k]? = some (.ok r) ∧
          r.escalate = false) ∧
      (∀ (now : Time) (err : GoError),
        ∃ r, ((fresh 0 0 "" "" 0).Receive now (some err)).2 = .ok r ∧ r.escalate = true) := by
  have hzero : ∀ (e : ThresholdEscalationPolicy) (now : Time) (err : GoError),
      e.ErrorCount ≤ 0 → ∃ r, (e.Receive now (some err)).2 = .ok r ∧ r.escalate = true := by
    intro e now err hle
    obtain ⟨logged, h⟩ := Receive_some e now err
    refine ⟨_, h, ?_⟩
    simp only [decide_eq_true_eq]
    omega
  refine ⟨hzero, ?_, ?_, fun now err => hzero _ now err (le_refl _)⟩
  · intro e now err hone hW
    obtain ⟨logged, h⟩ := Receive_some e now err
    refine ⟨_, h, ?_⟩
    have hin : inWindow now e.TimeWindow (⟨now, some err⟩ : errorTimeRecord) = true := by
      simp only [inWindow, decide_eq_true_eq]
      rw [Time.Sub_self]
      exact hW
    simp only [decide_eq_true_eq, List.countP_append, List.countP_cons_of_pos _ _ hin,
      List.countP_nil, hone]
    omega
  · intro n W name uniqID logEvery calls hn hW hsorted k hk
    obtain ⟨lo, hlo⟩ : ∃ lo : Int, ∀ c ∈ calls, lo ≤ c.1 := by
      cases calls with
      | nil => exact ⟨0, by simp⟩
      | cons c rest =>
        rw [List.map_cons, List.pairwise_cons] at hsorted
        refine ⟨c.1, fun d hd => ?_⟩
        rcases List.mem_cons.1 hd with rfl | hd
        · exact le_refl _
        · exact hsorted.1 d.1 (List.mem_map_of_mem Prod.fst hd)
    obtain ⟨r, hr, hdec⟩ := run_decisions calls (fresh n W name uniqID logEvery) [] lo
      (fun _ _ => rfl) hlo hsorted k hk
    refine ⟨r, hr, ?_⟩
    have hfresh : (fresh n W name uniqID logEvery).TimeWindow = W ∧
        (fresh n W name uniqID logEvery).ErrorCount = n := ⟨rfl, rfl⟩
    rw [hfresh.1, hfresh.2, List.nil_append] at hdec
    have hnone : ((calls.take (k + 1)).map recordOf).countP (inWindow (timeAt calls k) W) = 0 := by
      rw [List.countP_eq_zero]
      intro x hx
      obtain ⟨c, hc, rfl⟩ := List.mem_map.1 hx
      obtain ⟨i, hi, hci⟩ := List.getElem_of_mem hc
      rw [List.length_take] at hi
      have hik : i ≤ k := by omega
      have hi' : i < calls.length := by omega
      have hAt : (recordOf c).At = timeAt calls i := by
        rw [← hci, List.getElem_take]
        simp [recordOf, timeAt, List.getD_eq_getElem?_getD, List.getElem?_eq_getElem hi']
      have hle := timeAt_le_timeAt calls hsorted hik hk
      have h0 : 0 ≤ Time.Sub (timeAt calls k) (timeAt calls i) := by
        have := Time.Sub_le_Sub_right (timeAt calls k) hle
        rwa [Time.Sub_self] at this
      simp only [inWindow, hAt, decide_eq_true_eq, not_le]
      exact lt_of_lt_of_le hW h0
    rw [hdec, hnone]
    simp only [decide_eq_false_iff_not, not_le, Nat.cast_zero, ge_iff_le]
    omega

/-- Witness of C20: a policy with `ErrorCount = 0` escalates its first error. -/
theorem Receive_degenerate_witness :
    ∃ r, ((fresh 0 1000000000 "p" "" 0).Receive 63900000000000000000 (some (.base "a"))).2
      = .ok r ∧ r.escalate = true :=
  Receive_degenerate.1 (fresh 0 1000000000 "p" "" 0) 63900000000000000000 (.base "a")
    (by decide)

/-! ## Threshold policy: refinement of the policy without compaction -/

/-- A run of `Receive` whose stored window agrees with the history `H` on every
instant from `lo` on takes the decisions of the reference policy that holds
`H`, for calls at non-decreasing instants from `lo` on. -/
theorem run_refines (calls : List (Time × GoError)) :
    ∀ (e : ThresholdEscalationPolicy) (H : List errorTimeRecord) (lo : Int),
      (∀ t : Int, lo ≤ t →
        e.errors.filter (inWindow t e.TimeWindow) = H.filter (inWindow t e.TimeWindow)) →
      (∀ c ∈ calls, lo ≤ c.1) →
      (calls.map Prod.fst).Pairwise (· ≤ ·) →
      decisionsOf (e.run (withErrors calls)) =
        (ReferencePolicy.run ⟨e.ErrorCount, e.TimeWindow, H⟩ calls).map some := by
  induction calls with
  | nil => intro e H lo _ _ _; rfl
  | cons c rest ih =>
    intro e H lo hinv hlo hsorted
    obtain ⟨now, err⟩ := c
    obtain ⟨r0, hr0, hrun⟩ := run_cons_some e now err (withErrors rest)
    have hrun' : e.run (withErrors ((now, err) :: rest)) =
        .ok r0 :: (e.after now err).run (withErrors rest) := by
      simpa [withErrors] using hrun
    have hnow : lo ≤ now := hlo (now, err) (List.mem_cons_self _ _)
    rw [List.map_cons, List.pairwise_cons] at hsorted
    have hlo' : ∀ c ∈ rest, now ≤ c.1 := fun c hc =>
      hsorted.1 c.1 (List.mem_map_of_mem Prod.fst hc)
    have hcfg := after_config e now err
    have hinv' := after_agrees e H lo hinv now err hnow
    rw [← hcfg.2] at hinv'
    have htail := ih (e.after now err) (H ++ [(⟨now, some err⟩ : errorTimeRecord)]) now hinv'
      hlo' hsorted.2
    rw [hcfg.1, hcfg.2] at htail
    obtain ⟨logged, h⟩ := Receive_some e now err
    rw [h] at hr0
    injection hr0 with hr0
    subst hr0
    have hcount : (e.errors ++ [(⟨now, some err⟩ : errorTimeRecord)]).countP
        (inWindow now e.TimeWindow) =
        (H ++ [(⟨now, some err⟩ : errorTimeRecord)]).countP (inWindow now e.TimeWindow) := by
      rw [List.countP_eq_length_filter, List.countP_eq_length_filter, List.filter_append,
        List.filter_append, hinv now hnow]
    have hhead : decide ((((e.errors ++ [(⟨now, some err⟩ : errorTimeRecord)]).countP
        (inWindow now e.TimeWindow) : Nat) : Int) ≥ e.ErrorCount) =
        (ReferencePolicy.Receive ⟨e.ErrorCount, e.TimeWindow, H⟩ now err).2 := by
      simp only [hcount]
      rfl
    rw [hrun']
    simp only [decisionsOf, List.map_cons, ReferencePolicy.run] at htail ⊢
    exact congr (congrArg List.cons (congrArg some hhead)) htail

/-- C13: compaction is transparent to the decision. From a fresh policy (any
`ErrorCount`, any `TimeWindow`), for calls of `Receive` at non-decreasing clock
readings, every call returns, and the booleans are those of the reference
policy that never compacts: it keeps every record and returns whether the
number of all records received so far with `now - At <= TimeWindow` is at least
`ErrorCount`. -/
theorem Receive_refines_reference (n : Int) (W : Duration) (name uniqID : String)
    (logEvery : Int) (calls : List (Time × GoError))
    (hsorted : (calls.map Prod.fst).Pairwise (· ≤ ·)) :
    decisionsOf ((fresh n W name uniqID logEvery).run (withErrors calls)) =
      (ReferencePolicy.run ⟨n, W, []⟩ calls).map some := by
  obtain ⟨lo, hlo⟩ : ∃ lo : Int, ∀ c ∈ calls, lo ≤ c.1 := by
    cases calls with
    | nil => exact ⟨0, by simp⟩
    | cons c rest =>
      rw [List.map_cons, List.pairwise_cons] at hsorted
      refine ⟨c.1, fun d hd => ?_⟩
      rcases List.mem_cons.1 hd with rfl | hd
      · exact le_refl _
      · exact hsorted.1 d.1 (List.mem_map_of_mem Prod.fst hd)
  exact run_refines calls (fresh n W name uniqID logEvery) [] lo (fun _ _ => rfl) hlo hsorted

/-- Witness of C13: a run with a compaction at its third call, whose fourth call
counts as the reference does. -/
theorem Receive_refines_reference_witness :
    decisionsOf ((fresh 2 1000 "p" "" 0).run (withErrors
        [(63900000000000000000, .base "a"), (63900000000000000600, .base "b"),
         (63900000000000001700, .base "c"), (63900000000000002000, .base "d")])) =
      [some false, some true, some false, some true] :=
  (Receive_refines_reference 2 1000 "p" "" 0
    [(63900000000000000000, .base "a"), (63900000000000000600, .base "b"),
     (63900000000000001700, .base "c"), (63900000000000002000, .base "d")]
    (by decide)).trans (by decide)

/-! ## Threshold policy: bounded staleness -/

/-- A record kept by a compaction at `now` is within the window by plain
difference too. -/
theorem kept_by_compaction {now L a W : Int} (ha : a ≤ now) (hkeep : Time.Sub now a ≤ W)
    (hgap : Time.Sub now L > W) : now - a ≤ W := by
  unfold Time.Sub at hkeep hgap
  unfold maxDuration minDuration at *
  split_ifs at hkeep hgap <;> omega

/-- Without compaction at `now`, a record that is at most `W` older than the
last compaction is at most `2 * W` old. -/
theorem stale_without_compaction {now L a W : Int} (hL : L ≤ now) (ha : a ≤ now)
    (hold : L - a ≤ W) (hgap : Time.Sub now L ≤ W) (hW : 0 ≤ W) :
    Time.Sub now a ≤ 2 * W ∧ (W < maxDuration → now - a ≤ 2 * W) := by
  unfold Time.Sub at hgap ⊢
  unfold maxDuration minDuration at *
  split_ifs at hgap ⊢ <;> constructor <;> omega

/-- One call of `Receive` keeps the staleness invariant and bounds the age of
every stored record. -/
theorem after_staleness (e : ThresholdEscalationPolicy) (now : Time) (err : GoError) (t : Int)
    (hW : 0 ≤ e.TimeWindow) (hL : e.lastCompression ≤ t)
    (hrec : ∀ r ∈ e.errors, r.At ≤ t ∧ e.lastCompression - r.At ≤ e.TimeWindow)
    (ht : t ≤ now) :
    (e.after now err).lastCompression ≤ now ∧
      ∀ r ∈ (e.after now err).errors,
        r.At ≤ now ∧ (e.after now err).lastCompression - r.At ≤ e.TimeWindow ∧
          Time.Sub now r.At ≤ 2 * e.TimeWindow ∧
          (e.TimeWindow < maxDuration → now - r.At ≤ 2 * e.TimeWindow) := by
  have hall : ∀ r ∈ e.errors ++ [(⟨now, some err⟩ : errorTimeRecord)],
      r.At ≤ now ∧ e.lastCompression - r.At ≤ e.TimeWindow := by
    intro r hr
    rcases List.mem_append.1 hr with hr | hr
    · exact ⟨le_trans (hrec r hr).1 ht, (hrec r hr).2⟩
    · rw [List.mem_singleton] at hr
      subst hr
      exact ⟨le_refl _, le_trans (sub_nonpos.2 (le_trans hL ht)) hW⟩
  rw [after_errors, after_lastCompression]
  by_cases hgap : Time.Sub now e.lastCompression > e.TimeWindow
  · rw [if_pos hgap, if_pos hgap]
    refine ⟨le_refl _, fun r hr => ?_⟩
    rw [List.mem_filter] at hr
    have hkeep : Time.Sub now r.At ≤ e.TimeWindow := by simpa [inWindow] using hr.2
    have hplain := kept_by_compaction (hall r hr.1).1 hkeep hgap
    have h2 : e.TimeWindow ≤ 2 * e.TimeWindow := by linarith
    exact ⟨(hall r hr.1).1, hplain, le_trans hkeep h2, fun _ => le_trans hplain h2⟩
  · rw [if_neg hgap, if_neg hgap]
    refine ⟨le_trans hL ht, fun r hr => ?_⟩
    have hb := stale_without_compaction (le_trans hL ht) (hall r hr).1 (hall r hr).2
      (not_lt.1 hgap) hW
    exact ⟨(hall r hr).1, (hall r hr).2, hb.1, hb.2⟩

theorem afterAll_append (e : ThresholdEscalationPolicy) (calls : List (Time × GoError))
    (now : Time) (err : GoError) :
    e.afterAll (calls ++ [(now, err)]) = (e.afterAll calls).after now err := by
  simp [afterAll, List.foldl_append]

theorem afterAll_config (calls : List (Time × GoError)) :
    ∀ e : ThresholdEscalationPolicy, (e.afterAll calls).ErrorCount = e.ErrorCount ∧
      (e.afterAll calls).TimeWindow = e.TimeWindow := by
  induction calls with
  | nil => intro e; exact ⟨rfl, rfl⟩
  | cons c rest ih =>
    intro e
    have h1 := ih (e.after c.1 c.2)
    have h2 := after_config e c.1 c.2
    exact ⟨h1.1.trans h2.1, h1.2.trans h2.2⟩

/-- The staleness invariant along a run at non-decreasing instants. -/
theorem afterAll_staleness (calls : List (Time × GoError)) :
    ∀ (e : ThresholdEscalationPolicy) (t0 : Int), 0 ≤ e.TimeWindow →
      e.lastCompression ≤ t0 →
      (∀ r ∈ e.errors, r.At ≤ t0 ∧ e.lastCompression - r.At ≤ e.TimeWindow) →
      (∀ c ∈ calls, t0 ≤ c.1) → (calls.map Prod.fst).Pairwise (· ≤ ·) →
      ∀ t : Int, t0 ≤ t → (∀ c ∈ calls, c.1 ≤ t) →
        (e.afterAll calls).lastCompression ≤ t ∧
          ∀ r ∈ (e.afterAll calls).errors,
            r.At ≤ t ∧ (e.afterAll calls).lastCompression - r.At ≤ e.TimeWindow := by
  induction calls with
  | nil =>
    intro e t0 _ hL hrec _ _ t ht _
    exact ⟨le_trans hL ht, fun r hr => ⟨le_trans (hrec r hr).1 ht, (hrec r hr).2⟩⟩
  | cons c rest ih =>
    intro e t0 hW hL hrec hlo hsorted t ht hhi
    obtain ⟨now, err⟩ := c
    have hnow : t0 ≤ now := hlo (now, err) (List.mem_cons_self _ _)
    rw [List.map_cons, List.pairwise_cons] at hsorted
    have hstep := after_staleness e now err t0 hW hL hrec hnow
    have hcfg := after_config e now err
    have hW' : 0 ≤ (e.after now err).TimeWindow := by rw [hcfg.2]; exact hW
    have hrec' : ∀ r ∈ (e.after now err).errors,
        r.At ≤ now ∧ (e.after now err).lastCompression - r.At ≤ (e.after now err).TimeWindow := by
      intro r hr
      rw [hcfg.2]
      exact ⟨(hstep.2 r hr).1, (hstep.2 r hr).2.1⟩
    have hres := ih (e.after now err) now hW' hstep.1 hrec'
      (fun c hc => hsorted.1 c.1 (List.mem_map_of_mem Prod.fst hc)) hsorted.2 t
      (hhi (now, err) (List.mem_cons_self _ _))
      (fun c hc => hhi c (List.mem_cons_of_mem _ hc))
    rw [hcfg.2] at hres
    exact hres

set_option maxRecDepth 8192 in
/-- C15: bounded staleness. From a fresh policy with `TimeWindow = W ≥ 0`, for
calls of `Receive` at non-decreasing clock readings (none before the zero
`time.Time`, as no reading of `time.Now()` is), after the call at `now` every
stored record satisfies `now.Sub(At) <= 2 * W`, and `now - At <= 2 * W` when
`W` is below the largest duration; indeed `lastCompression <= now` and every
stored record has `At >= lastCompression - W`. Records with
`now.Sub(At) > W` can remain stored between compactions. -/
theorem Receive_bounded_staleness (n : Int) (W : Duration) (name uniqID : String)
    (logEvery : Int) (calls : List (Time × GoError)) (now : Time) (err : GoError)
    (hW : 0 ≤ W) (hzero : ∀ c ∈ calls ++ [(now, err)], 0 ≤ c.1)
    (hsorted : ((calls ++ [(now, err)]).map Prod.fst).Pairwise (· ≤ ·)) :
    (((fresh n W name uniqID logEvery).afterAll (calls ++ [(now, err)])).lastCompression ≤ now ∧
      ∀ r ∈ ((fresh n W name uniqID logEvery).afterAll (calls ++ [(now, err)])).errors,
        r.At ≥ ((fresh n W name uniqID logEvery).afterAll
            (calls ++ [(now, err)])).lastCompression - W ∧
          Time.Sub now r.At ≤ 2 * W ∧ (W < maxDuration → now - r.At ≤ 2 * W)) ∧
      (((fresh 5 1000 "p" "" 0).afterAll
            [(63900000000000000000, .base "a"), (63900000000000000600, .base "b"),
             (63900000000000001100, .base "c"), (63900000000000002000, .base "d")]).errors =
          [⟨63900000000000000600, some (.base "b")⟩, ⟨63900000000000001100, some (.base "c")⟩,
           ⟨63900000000000002000, some (.base "d")⟩] ∧
        Time.Sub 63900000000000002000 63900000000000000600 > 1000) := by
  refine ⟨?_, rfl, by decide⟩
  rw [List.map_append, List.pairwise_append] at hsorted
  have hnow0 : (0 : Int) ≤ now := hzero (now, err) (by simp)
  have hle : ∀ c ∈ calls, c.1 ≤ now := fun c hc =>
    hsorted.2.2 c.1 (List.mem_map_of_mem Prod.fst hc) now (by simp)
  have hinv := afterAll_staleness calls (fresh n W name uniqID logEvery) 0 hW (le_refl _)
    (fun r hr => by cases hr)
    (fun c hc => hzero c (List.mem_append_left _ hc)) hsorted.1 now hnow0 hle
  have hcfg := afterAll_config calls (fresh n W name uniqID logEvery)
  have hWeq : ((fresh n W name uniqID logEvery).afterAll calls).TimeWindow = W := hcfg.2
  have hinv2 : ∀ r ∈ ((fresh n W name uniqID logEvery).afterAll calls).errors,
      r.At ≤ now ∧ ((fresh n W name uniqID logEvery).afterAll calls).lastCompression - r.At ≤
        ((fresh n W name uniqID logEvery).afterAll calls).TimeWindow := by
    intro r hr
    rw [hWeq]
    exact hinv.2 r hr
  have hstep := after_staleness ((fresh n W name uniqID logEvery).afterAll calls) now err now
    (by rw [hWeq]; exact hW) hinv.1 hinv2 (le_refl _)
  rw [afterAll_append]
  rw [hWeq] at hstep
  refine ⟨hstep.1, fun r hr => ?_⟩
  obtain ⟨_, h2, h3, h4⟩ := hstep.2 r hr
  exact ⟨by linarith, h3, h4⟩

/-- Witness of C15: after calls at 0, 600, 1100 and 2000 ns past an instant, with
a window of 1000 ns, the last compaction is not after the last call. -/
theorem Receive_bounded_staleness_witness :
    ((fresh 5 1000 "p" "" 0).afterAll
        ([(63900000000000000000, .base "a"), (63900000000000000600, .base "b"),
          (63900000000000001100, .base "c")] ++ [(63900000000000002000, .base "d")])).lastCompression
      ≤ 63900000000000002000 :=
  (Receive_bounded_staleness 5 1000 "p" "" 0
    [(63900000000000000000, .base "a"), (63900000000000000600, .base "b"),
     (63900000000000001100, .base "c")] 63900000000000002000 (.base "d")
    (by decide) (by decide) (by decide)).1.1

/-! ## Threshold policy: log cadence -/

theorem emod_succ (j N : Int) (hN : 0 < N) :
    (j + 1) % N = if j % N + 1 = N then 0 else j % N + 1 := by
  have h0 := Int.emod_nonneg j (ne_of_gt hN)
  have h1 := Int.emod_lt_of_pos j hN
  have hj := Int.emod_add_ediv j N
  split_ifs with h
  · have : j + 1 = N * (j / N + 1) := by rw [mul_add, mul_one]; omega
    rw [this, Int.mul_emod_right]
  · have : j + 1 = (j % N + 1) + N * (j / N) := by omega
    rw [this, Int.add_mul_emod_self_left, Int.emod_eq_of_lt (by omega) (by omega)]

theorem after_LogEvery (e : ThresholdEscalationPolicy) (now : Time) (err : GoError) :
    (e.after now err).LogEvery = e.LogEvery := by
  simp only [after, Receive, Option.isNone_some, Bool.and_false, Bool.false_eq_true, if_false]
  by_cases h : Time.Sub now e.lastCompression > e.TimeWindow <;> simp [h]

/-- One call on a policy that logs every `N`-th error and has counted `j` calls
modulo `N`: it logs exactly when `N` divides `j + 1`. -/
theorem after_log_step (e : ThresholdEscalationPolicy) (now : Time) (err : GoError)
    (N j : Int) (hN : 1 ≤ N) (hint : N < 2 ^ 63) (hE : e.LogEvery = N)
    (hs : e.skippedSinceLastLog = j % N) :
    (∃ escalate, (e.Receive now (some err)).2 = .ok
        { escalate := escalate, logged := if N ∣ j + 1 then some err.Error else none }) ∧
      (e.after now err).skippedSinceLastLog = (j + 1) % N := by
  have h0 := Int.emod_nonneg j (ne_of_gt (lt_of_lt_of_le zero_lt_one hN))
  have h1 := Int.emod_lt_of_pos j (lt_of_lt_of_le zero_lt_one hN)
  have hwrap : wrapInt (e.skippedSinceLastLog + 1) = j % N + 1 := by
    rw [hs]; exact wrapInt_eq_self (by omega) (by omega)
  have hsucc := emod_succ j N (lt_of_lt_of_le zero_lt_one hN)
  have hdvd : N ∣ j + 1 ↔ j % N + 1 = N := by
    rw [Int.dvd_iff_emod_eq_zero, hsucc]
    constructor
    · intro h
      by_contra hne
      rw [if_neg hne] at h
      omega
    · intro h
      rw [if_pos h]
  obtain ⟨⟨escalate, hret⟩, hskip⟩ := Receive_logged e now err
  rw [hwrap, hE] at hret hskip
  have hcond : (N > 0 ∧ j % N + 1 ≥ N) ↔ N ∣ j + 1 := by
    rw [hdvd]
    constructor
    · intro h; omega
    · intro h; omega
  constructor
  · refine ⟨escalate, ?_⟩
    rw [hret]
    by_cases hd : N ∣ j + 1
    · rw [if_pos hd, if_pos (hcond.2 hd)]
    · rw [if_neg hd, if_neg (fun h => hd (hcond.1 h))]
  · rw [hskip, hsucc, if_pos (by omega : N > 0)]
    by_cases hd : j % N + 1 = N
    · rw [if_pos hd, if_pos (by omega)]
    · rw [if_neg hd, if_neg (by omega)]

/-- Log lines of a run and the skip counter after it, for a policy that logs
every `N`-th error and has counted `j` calls modulo `N`. -/
theorem run_log (N : Int) (hN : 1 ≤ N) (hint : N < 2 ^ 63) (calls : List (Time × GoError)) :
    ∀ (e : ThresholdEscalationPolicy) (j : Int), e.LogEvery = N →
      e.skippedSinceLastLog = j % N →
      (∀ k : Nat, k < calls.length →
        ∃ r, (e.run (withErrors calls))[k]? = some (.ok r) ∧
          r.logged = if N ∣ j + (k : Int) + 1 then calls[k]?.map (fun c => c.2.Error)
            else none) ∧
        (e.afterAll calls).skippedSinceLastLog = (j + (calls.length : Int)) % N := by
  induction calls with
  | nil =>
    intro e j _ hs
    exact ⟨fun k hk => by simp at hk, by simpa [afterAll] using hs⟩
  | cons c rest ih =>
    intro e j hE hs
    obtain ⟨now, err⟩ := c
    obtain ⟨r0, hr0, hrun⟩ := run_cons_some e now err (withErrors rest)
    have hrun' : e.run (withErrors ((now, err) :: rest)) =
        .ok r0 :: (e.after now err).run (withErrors rest) := by
      simpa [withErrors] using hrun
    obtain ⟨⟨escalate, hret⟩, hskip⟩ := after_log_step e now err N j hN hint hE hs
    rw [hret] at hr0
    injection hr0 with hr0
    subst hr0
    obtain ⟨ihrun, ihskip⟩ := ih (e.after now err) (j + 1)
      ((after_LogEvery e now err).trans hE) hskip
    constructor
    · intro k hk
      cases k with
      | zero =>
        refine ⟨⟨escalate, if N ∣ j + 1 then some err.Error else none⟩,
          by rw [hrun']; simp, ?_⟩
        simp
      | succ k =>
        have hk' : k < rest.length := by simpa using hk
        obtain ⟨r, hr, hlog⟩ := ihrun k hk'
        refine ⟨r, by rw [hrun']; simpa using hr, ?_⟩
        have harith : j + ((k + 1 : Nat) : Int) + 1 = j + 1 + (k : Int) + 1 := by
          push_cast; ring
        rw [hlog, harith]
        simp
    · have harith : j + (((now, err) :: rest).length : Int) = j + 1 + (rest.length : Int) := by
        simp only [List.length_cons]; push_cast; ring
      rw [harith, ← ihskip]
      rfl

/-- C17: log cadence. A fresh policy with `LogEvery = N ≥ 1` (a Go `int`, so
`N < 2 ^ 63`) hands a line to the logger on exactly the calls of `Receive`
numbered `N, 2N, 3N, ...`, the text being the error of that call, and after
every call `0 ≤ skippedSinceLastLog < N`. With `LogEvery ≤ 0` no call logs and
`skippedSinceLastLog` does not change. -/
theorem Receive_log_cadence (n : Int) (W : Duration) (name uniqID : String) (N : Int)
    (calls : List (Time × GoError)) (hN : 1 ≤ N) (hint : N < 2 ^ 63) :
    (∀ k : Nat, k < calls.length →
        ∃ r, ((fresh n W name uniqID N).run (withErrors calls))[k]? = some (.ok r) ∧
          r.logged = if N ∣ (k : Int) + 1 then calls[k]?.map (fun c => c.2.Error) else none) ∧
      (0 ≤ ((fresh n W name uniqID N).afterAll calls).skippedSinceLastLog ∧
        ((fresh n W name uniqID N).afterAll calls).skippedSinceLastLog < N) ∧
      (∀ (e : ThresholdEscalationPolicy) (now : Time) (err : GoError), e.LogEvery ≤ 0 →
        (∃ escalate, (e.Receive now (some err)).2 = .ok ⟨escalate, none⟩) ∧
          (e.Receive now (some err)).1.skippedSinceLastLog = e.skippedSinceLastLog) := by
  have hpos : (0 : Int) < N := lt_of_lt_of_le zero_lt_one hN
  obtain ⟨hrun, hskip⟩ := run_log N hN hint calls (fresh n W name uniqID N) 0 rfl
    (by simp [fresh])
  refine ⟨?_, ?_, ?_⟩
  · intro k hk
    obtain ⟨r, hr, hlog⟩ := hrun k hk
    exact ⟨r, hr, by rw [hlog, zero_add]⟩
  · rw [hskip]
    exact ⟨Int.emod_nonneg _ (ne_of_gt hpos), Int.emod_lt_of_pos _ hpos⟩
  · intro e now err hle
    obtain ⟨⟨escalate, hret⟩, hsk⟩ := Receive_logged e now err
    have hno : ¬ e.LogEvery > 0 := not_lt.2 hle
    constructor
    · refine ⟨escalate, ?_⟩
      rw [hret, if_neg (fun h => hno h.1)]
    · simp only [after] at hsk
      rw [hsk, if_neg hno]

/-- Witness of C17: with `LogEvery = 2`, the second of three calls logs its error. -/
theorem Receive_log_cadence_witness :
    ∃ r, ((fresh 5 1000 "p" "" 2).run (withErrors
        [(63900000000000000000, .base "a"), (63900000000000000600, .base "b"),
         (63900000000000001100, .base "c")]))[1]? = some (.ok r) ∧ r.logged = some "b" := by
  obtain ⟨r, hr, hlog⟩ := (Receive_log_cadence 5 1000 "p" "" 2
    [(63900000000000000000, .base "a"), (63900000000000000600, .base "b"),
     (63900000000000001100, .base "c")] (by decide) (by decide)).1 1 (by decide)
  exact ⟨r, hr, hlog.trans (by decide)⟩

end ThresholdEscalationPolicy

/-! ## Worker and teardown: interleavings -/

namespace Dispatch

/-- The worker alone empties the intake buffer, one `select` per buffered error,
starting one evaluation goroutine for each. -/
theorem steps_workerReceive (buf : List (Option GoError)) :
    ∀ s : Dispatch, s.workerRunning = true → s.errorChanBuf = buf →
      s.steps (List.replicate buf.length .workerReceive) =
        some { s with errorChanBuf := [], tasks := s.tasks ++ buf.map .started } := by
  induction buf with
  | nil =>
    intro s _ hbuf
    simp only [List.length_nil, List.replicate_zero, steps, List.map_nil, List.append_nil]
    rw [← hbuf]
  | cons v rest ih =>
    intro s hrun hbuf
    have hstep : s.step .workerReceive =
        some { s with errorChanBuf := rest, tasks := s.tasks ++ [.started v] } := by
      simp [step, hrun, hbuf]
    have hrest := ih { s with errorChanBuf := rest, tasks := s.tasks ++ [.started v] } hrun rfl
    rw [List.length_cons, List.replicate_succ, steps, hstep]
    simp only
    rw [hrest]
    simp [List.append_assoc]

/-- Producers and the worker alone: every value sent on the open, empty intake
channel is taken by the worker at its next `select`. -/
theorem steps_produce_workerReceive (vs : List (Option GoError)) :
    ∀ s : Dispatch, s.workerRunning = true → s.errorChanClosed = false →
      s.errorChanBuf = [] → 0 < s.errorChanCap →
      s.steps (vs.flatMap (fun v => [.produce v, .workerReceive])) =
        some { s with tasks := s.tasks ++ vs.map .started, produced := s.produced ++ vs } := by
  induction vs with
  | nil =>
    intro s _ _ _ _
    simp [steps]
  | cons v rest ih =>
    intro s hrun hopen hbuf hcap
    have h1 : s.step (.produce v) =
        some { s with errorChanBuf := [v], produced := s.produced ++ [v] } := by
      simp [step, hopen, hbuf, hcap]
    have h2 : Dispatch.step { s with errorChanBuf := [v], produced := s.produced ++ [v] }
        .workerReceive =
        some { s with tasks := s.tasks ++ [.started v], produced := s.produced ++ [v] } := by
      simp [step, hrun, hbuf]
    have hrest := ih { s with tasks := s.tasks ++ [.started v], produced := s.produced ++ [v] }
      hrun hopen hbuf hcap
    rw [List.flatMap_cons, List.cons_append, List.cons_append, List.nil_append, steps, h1]
    simp only
    rw [steps, h2]
    simp only
    rw [hrest]
    simp [List.append_assoc]

/-- C12: non-blocking intake. While the worker runs, it takes every buffered
error from the intake channel and starts an evaluation goroutine for it in
actions of its own only, whatever evaluation goroutines are in flight and
wherever they stand (inside `Receive`, or at a send on a full escalation
channel): no action of an evaluation goroutine is needed in between. Likewise
every error that producers send next on the open channel is taken at the
worker's next `select`. -/
theorem worker_never_waits (s : Dispatch) (hrun : s.workerRunning = true) :
    s.steps (List.replicate s.errorChanBuf.length .workerReceive) =
        some { s with errorChanBuf := [], tasks := s.tasks ++ s.errorChanBuf.map .started } ∧
      ∀ vs : List (Option GoError), s.errorChanClosed = false → s.errorChanBuf = [] →
        0 < s.errorChanCap →
        s.steps (vs.flatMap (fun v => [.produce v, .workerReceive])) =
          some { s with tasks := s.tasks ++ vs.map .started, produced := s.produced ++ vs } :=
  ⟨steps_workerReceive s.errorChanBuf s hrun rfl,
    fun vs hopen hbuf hcap => steps_produce_workerReceive vs s hrun hopen hbuf hcap⟩

/-- Witness of C12: one evaluation goroutine is inside `Receive`, another is at
its send on the full escalation channel; the worker takes both buffered errors. -/
theorem worker_never_waits_witness :
    Dispatch.steps
        { name := "db", uid := "db-1", errorChanCap := 2,
          errorChanBuf := [some (.base "c"), some (.base "d")], errorChanClosed := false,
          closeChanClosed := false, workerRunning := true,
          tasks := [.inReceive (some (.base "a")), .sending (.base "m")],
          escalationCap := 32, escalationBuf := List.replicate 32 (.base "m"),
          closer := .notStarted, produced := [], received := [some (.base "a")] }
        [.workerReceive, .workerReceive] =
      some
        { name := "db", uid := "db-1", errorChanCap := 2, errorChanBuf := [],
          errorChanClosed := false, closeChanClosed := false, workerRunning := true,
          tasks := [.inReceive (some (.base "a")), .sending (.base "m"),
            .started (some (.base "c")), .started (some (.base "d"))],
          escalationCap := 32, escalationBuf := List.replicate 32 (.base "m"),
          closer := .notStarted, produced := [], received := [some (.base "a")] } :=
  (worker_never_waits
    { name := "db", uid := "db-1", errorChanCap := 2,
      errorChanBuf := [some (.base "c"), some (.base "d")], errorChanClosed := false,
      closeChanClosed := false, workerRunning := true,
      tasks := [.inReceive (some (.base "a")), .sending (.base "m")],
      escalationCap := 32, escalationBuf := List.replicate 32 (.base "m"),
      closer := .notStarted, produced := [], received := [some (.base "a")] } rfl).1

/-- C19: an interleaving where the claim fails. No producer sends anything;
`closer` closes the intake channel; the worker's `select` takes
`case err := <-errorChan`, which the closed channel serves with `nil`; the
evaluation goroutine calls `Receive(nil)`. The same happens after `closer` has
closed the teardown channel too, and a policy that returns true then has the
nil value escalated. -/
theorem worker_receives_nil_after_close :
    (∃ s, (Dispatch.init "db" "db-1" 1).steps [.closerStep, .workerReceive, .taskCall 0]
        = some s ∧ s.produced = [] ∧ s.received = [none]) ∧
      (∃ s, (Dispatch.init "db" "db-1" 1).steps
          [.closerStep, .closerStep, .closerStep, .workerReceive, .taskCall 0,
           .taskReturn 0 true, .taskSend 0]
        = some s ∧ s.produced = [] ∧ s.received = [none] ∧
        s.escalationBuf =
          [.base "async error policy 'db' (db-1) escalated: %!w(<nil>)"]) :=
  ⟨⟨_, rfl, rfl, rfl⟩, ⟨_, rfl, rfl, rfl, by decide⟩⟩

end Dispatch

end asyncerror
